import Mathlib

/-!
Verification development for a local filesystem copy/move utility written in C
(`file_operations.h` / `file_operations.c`).

The filesystem is modelled shallowly: a path is a list of name components, the
filesystem is an association list from paths to nodes (regular files carrying
their byte content and permission bits, or directories).  The C functions
`copy_file`, `copy_directory`, `compare_files`, `create_directory`,
`move_file`, `move_directory`, `remove_directory`, `match_pattern` and
`should_copy_file` are translated into state-passing Lean functions over this
model.  POSIX primitives (`read`, `write`, `unlink`, `rmdir`, `mkdir`,
`rename`, `fnmatch`) are modelled explicitly; transient I/O failures of
`read`, `write` and `unlink` are modelled by consumable fault streams carried
in the system state, and every successful mutation or verification step is
recorded in an event log so that temporal claims about the order of deletions
and verifications can be stated.
-/

namespace FileOps

/-- A path is a list of name components (the C code builds paths by
joining components with a slash; `basename` is the last component). -/
abbrev Path := List String

/-- A filesystem node: a regular file with byte content and permission bits,
or a directory. -/
inductive Node where
  | file (content : List Nat) (perms : Nat)
  | dir
deriving DecidableEq, Repr

/-- The filesystem: an association list from paths to nodes. -/
abbrev FS := List (Path × Node)

/-- Look up a path (first matching entry). -/
def fsGet : FS → Path → Option Node
  | [], _ => none
  | e :: rest, p => if e.1 = p then some e.2 else fsGet rest p

/-- Remove the entry at a path. -/
def fsRemove : FS → Path → FS
  | [], _ => []
  | e :: rest, p => if e.1 = p then fsRemove rest p else e :: fsRemove rest p

/-- Insert or replace the node at a path. -/
def fsSet (fs : FS) (p : Path) (n : Node) : FS :=
  (p, n) :: fsRemove fs p

/-- Events recorded while the modelled code runs: successful reads and writes
(with byte counts), successful removals (`unlink`/`rmdir`), successful atomic
renames, and the point inside `move_file` where the fallback verification
succeeded. -/
inductive Ev where
  | readE (p : Path) (n : Nat)
  | writeE (p : Path) (n : Nat)
  | removedE (p : Path)
  | renamedE (src dest : Path)
  | verifiedE (src dest : Path)
deriving DecidableEq, Repr

/-- System state: the filesystem, the environment of the `rename` syscall
(whether source and destination are on different devices, and whether rename
fails for an unrelated reason), consumable fault streams for the `read`,
`write` and `unlink` syscalls (one Boolean popped per call; `true` injects a
transient failure), and the event log. -/
structure Sys where
  fs : FS
  crossDev : Bool
  renameOther : Bool
  readFaults : List Bool
  writeFaults : List Bool
  unlinkFaults : List Bool
  log : List Ev
deriving DecidableEq, Repr

/-- A system state with no injected faults and an empty log. -/
def cleanSys (fs : FS) : Sys :=
  { fs := fs, crossDev := false, renameOther := false,
    readFaults := [], writeFaults := [], unlinkFaults := [], log := [] }

/-- No pending injected faults. -/
def noFaults (sys : Sys) : Prop :=
  sys.readFaults = [] ∧ sys.writeFaults = [] ∧ sys.unlinkFaults = []

instance (sys : Sys) : Decidable (noFaults sys) := by
  unfold noFaults; infer_instance

/-- `BUFFER_SIZE` from `file_operations.h`. -/
def BUFFER_SIZE : Nat := 8192

/-- `st_size` reported for a directory (a typical block size; only its
inequality with small file sizes matters). -/
def dirSize : Int := 4096

def SUCCESS : Int := 0
def ERROR_FILE_OPEN : Int := -1
def ERROR_FILE_READ : Int := -2
def ERROR_FILE_WRITE : Int := -3
def ERROR_DIR_CREATE : Int := -4
def ERROR_DIR_OPEN : Int := -5
def ERROR_INVALID_PATH : Int := -6
def ERROR_MOVE_FAILED : Int := -7
def ERROR_FILES_DIFFER : Int := -8

/-- C `path_exists`: `stat(path) == 0`. -/
def path_exists (fs : FS) (p : Path) : Bool :=
  (fsGet fs p).isSome

/-- C `is_directory`: `stat` succeeds and `S_ISDIR(st_mode)`. -/
def is_directory (fs : FS) (p : Path) : Bool :=
  fsGet fs p = some Node.dir

/-- Length of the file at a path, if it is a regular file. -/
def fileLen (fs : FS) (p : Path) : Option Nat :=
  match fsGet fs p with
  | some (Node.file c _) => some c.length
  | _ => none

/-- C `get_file_size`: `st_size`, or `-1` when `stat` fails. -/
def get_file_size (fs : FS) (p : Path) : Int :=
  match fsGet fs p with
  | some (Node.file c _) => Int.ofNat c.length
  | some Node.dir => dirSize
  | none => -1

/-- C `strrchr`-based basename extraction in `copy_file`: the component after
the last slash (the whole string when it has no slash). -/
def baseName (p : Path) : String :=
  p.getLast?.getD ""

/-- The `read(fd, buf, BUFFER_SIZE)` syscall at a given file offset.  Pops one
entry of the read-fault stream (a transient I/O failure when `true`); reading
a directory fails (`EISDIR`).  A successful read is logged. -/
def readOp (sys : Sys) (p : Path) (off : Nat) : Except Unit (List Nat) × Sys :=
  let fault := sys.readFaults.head?.getD false
  let sys1 := { sys with readFaults := sys.readFaults.tail }
  if fault then (Except.error (), sys1)
  else
    match fsGet sys1.fs p with
    | some (Node.file c _) =>
        let chunk := (c.drop off).take BUFFER_SIZE
        (Except.ok chunk, { sys1 with log := sys1.log ++ [Ev.readE p chunk.length] })
    | _ => (Except.error (), sys1)

/-- The `write(fd, buf, n)` syscall (appending at the end of the destination,
as in the sequential copy loop).  A popped fault models a failed or short
write. -/
def writeOp (sys : Sys) (p : Path) (data : List Nat) : Except Unit Unit × Sys :=
  let fault := sys.writeFaults.head?.getD false
  let sys1 := { sys with writeFaults := sys.writeFaults.tail }
  if fault then (Except.error (), sys1)
  else
    match fsGet sys1.fs p with
    | some (Node.file c pm) =>
        (Except.ok (),
          { sys1 with
            fs := fsSet sys1.fs p (Node.file (c ++ data) pm)
            log := sys1.log ++ [Ev.writeE p data.length] })
    | _ => (Except.error (), sys1)

/-- The `unlink` syscall: removes a regular file; fails on directories
(`EISDIR`) and missing paths; a popped fault models e.g. `EACCES`. -/
def unlinkOp (sys : Sys) (p : Path) : Except Unit Unit × Sys :=
  let fault := sys.unlinkFaults.head?.getD false
  let sys1 := { sys with unlinkFaults := sys.unlinkFaults.tail }
  if fault then (Except.error (), sys1)
  else
    match fsGet sys1.fs p with
    | some (Node.file _ _) =>
        (Except.ok (),
          { sys1 with
            fs := fsRemove sys1.fs p
            log := sys1.log ++ [Ev.removedE p] })
    | _ => (Except.error (), sys1)

/-- Does the path have a strict descendant in the filesystem? -/
def hasChild (fs : FS) (p : Path) : Bool :=
  fs.any fun e => decide (p <+: e.1 ∧ p ≠ e.1)

/-- The `rmdir` syscall: removes an empty directory; fails on non-directories,
missing paths and non-empty directories (`ENOTEMPTY`). -/
def rmdirOp (sys : Sys) (p : Path) : Except Unit Unit × Sys :=
  match fsGet sys.fs p with
  | some Node.dir =>
      if hasChild sys.fs p then (Except.error (), sys)
      else
        (Except.ok (),
          { sys with
            fs := fsRemove sys.fs p
            log := sys.log ++ [Ev.removedE p] })
  | _ => (Except.error (), sys)

/-- The parent directory of a path exists (or the path is a single component,
whose parent is the implicit working directory). -/
def parentOk (fs : FS) (p : Path) : Bool :=
  p ≠ [] ∧ (p.dropLast = [] ∨ fsGet fs p.dropLast = some Node.dir)

/-- The `mkdir(path, 0755)` syscall.  `Except.error true` is `EEXIST` (which
`create_directory` tolerates); `Except.error false` is any other failure. -/
def mkdirOp (sys : Sys) (p : Path) : Except Bool Sys :=
  if (fsGet sys.fs p).isSome then Except.error true
  else if parentOk sys.fs p then
    Except.ok { sys with fs := fsSet sys.fs p Node.dir }
  else Except.error false

/-- `open(path, O_WRONLY | O_CREAT | O_TRUNC, 0644)`: truncates an existing
regular file (keeping its permission bits), creates a fresh file with mode
`0644` when the parent directory exists, fails on directories (`EISDIR`) and
on missing parents. -/
def openTrunc (sys : Sys) (p : Path) : Except Unit Sys :=
  match fsGet sys.fs p with
  | some (Node.file _ pm) => Except.ok { sys with fs := fsSet sys.fs p (Node.file [] pm) }
  | some Node.dir => Except.error ()
  | none =>
      if parentOk sys.fs p then
        Except.ok { sys with fs := fsSet sys.fs p (Node.file [] 0o644) }
      else Except.error ()

/-- `open(path, O_RDONLY)`: succeeds whenever the path exists (opening a
directory read-only succeeds on Linux; the subsequent `read` fails). -/
def openReadOk (fs : FS) (p : Path) : Bool :=
  (fsGet fs p).isSome

/-- Error kinds of the `rename` syscall that the code distinguishes:
`EXDEV` (cross-device) versus everything else. -/
inductive RErr where
  | exdev
  | other
deriving DecidableEq, Repr

/-- Entries under a path whose keys get re-prefixed by a directory rename. -/
def renamePrefix (fs : FS) (src dest : Path) : FS :=
  fs.map fun e => if src <+: e.1 then (dest ++ e.1.drop src.length, e.2) else e

/-- The `rename` syscall.  Fails with an injected non-`EXDEV` error when
`renameOther` is set; renaming a path to itself succeeds and does nothing;
renaming across devices (the `crossDev` flag) fails with `EXDEV`; a file
rename replaces an existing destination file but fails onto a directory
(`EISDIR`); a directory rename moves the whole subtree and requires the
destination not to exist.  Failures leave the state untouched; success is
logged. -/
def renameOp (sys : Sys) (src dest : Path) : Except RErr Unit × Sys :=
  if sys.renameOther then (Except.error RErr.other, sys)
  else
    match fsGet sys.fs src with
    | none => (Except.error RErr.other, sys)
    | some n =>
      if src = dest then
        (Except.ok (), { sys with log := sys.log ++ [Ev.renamedE src dest] })
      else if sys.crossDev then (Except.error RErr.exdev, sys)
      else
        match n with
        | Node.file c pm =>
            if fsGet sys.fs dest = some Node.dir then (Except.error RErr.other, sys)
            else if parentOk sys.fs dest then
              (Except.ok (),
                { sys with
                  fs := fsSet (fsRemove sys.fs src) dest (Node.file c pm)
                  log := sys.log ++ [Ev.renamedE src dest] })
            else (Except.error RErr.other, sys)
        | Node.dir =>
            if (fsGet sys.fs dest).isSome then (Except.error RErr.other, sys)
            else if parentOk sys.fs dest then
              (Except.ok (),
                { sys with
                  fs := renamePrefix sys.fs src dest
                  log := sys.log ++ [Ev.renamedE src dest] })
            else (Except.error RErr.other, sys)

/-- The final destination path computed inside `copy_file`: when the given
destination is an existing directory the file is placed inside it under the
source's basename, otherwise the destination path is used as-is. -/
def finalDest (fs : FS) (src dest : Path) : Path :=
  if is_directory fs dest then dest ++ [baseName src] else dest

/-- The `while ((bytes_read = read(...)) > 0)` copy loop of `copy_file`:
read a chunk at the current offset, stop successfully on end of stream,
otherwise write the chunk to the destination and continue.  `fuel` bounds the
number of iterations (chosen large enough by `copy_file`). -/
def copyLoop : Nat → Sys → Path → Path → Nat → Int × Sys
  | 0, sys, _, _, _ => (ERROR_FILE_READ, sys)
  | fuel + 1, sys, src, fd, off =>
    match readOp sys src off with
    | (Except.error _, sys1) => (ERROR_FILE_READ, sys1)
    | (Except.ok chunk, sys1) =>
      if chunk.isEmpty then (SUCCESS, sys1)
      else
        match writeOp sys1 fd chunk with
        | (Except.error _, sys2) => (ERROR_FILE_WRITE, sys2)
        | (Except.ok _, sys2) => copyLoop fuel sys2 src fd (off + chunk.length)

/-- C `copy_file`: open the source read-only; if the destination is an
existing directory, copy into `dest/basename(src)`; open/create/truncate the
destination; copy in `BUFFER_SIZE` chunks; finally copy the source's
permission bits onto the destination (`fstat` + `fchmod`). -/
def copy_file (sys : Sys) (src_path dest_path : Path) : Int × Sys :=
  if ¬ openReadOk sys.fs src_path then (ERROR_FILE_OPEN, sys)
  else
    let fd := finalDest sys.fs src_path dest_path
    match openTrunc sys fd with
    | Except.error _ => (ERROR_FILE_OPEN, sys)
    | Except.ok sys1 =>
      let fuel := (fileLen sys1.fs src_path).getD 0 + 2
      let res := copyLoop fuel sys1 src_path fd 0
      if res.1 ≠ SUCCESS then res
      else
        match fsGet res.2.fs src_path, fsGet res.2.fs fd with
        | some (Node.file _ pm), some (Node.file c _) =>
            (SUCCESS, { res.2 with fs := fsSet res.2.fs fd (Node.file c pm) })
        | _, _ => (SUCCESS, res.2)

/-- The lock-step comparison loop of `compare_files`: read a chunk from each
file, fail on a read error, report a difference on a chunk-length or content
mismatch, succeed when both hit end-of-file together. -/
def cmpLoop : Nat → Sys → Path → Path → Nat → Int × Sys
  | 0, sys, _, _, _ => (ERROR_FILE_READ, sys)
  | fuel + 1, sys, f1, f2, off =>
    let r1 := readOp sys f1 off
    let r2 := readOp r1.2 f2 off
    match r1.1, r2.1 with
    | Except.ok c1, Except.ok c2 =>
      if c1.length ≠ c2.length then (ERROR_FILES_DIFFER, r2.2)
      else if c1.isEmpty then (SUCCESS, r2.2)
      else if c1 ≠ c2 then (ERROR_FILES_DIFFER, r2.2)
      else cmpLoop fuel r2.2 f1 f2 (off + c1.length)
    | _, _ => (ERROR_FILE_READ, r2.2)

/-- C `compare_files`: reject when either path is missing; compare sizes and
short-circuit to "different" on a size mismatch without reading content;
otherwise stream both files in lock-step `BUFFER_SIZE` chunks. -/
def compare_files (sys : Sys) (file1 file2 : Path) : Int × Sys :=
  if ¬ (path_exists sys.fs file1 ∧ path_exists sys.fs file2) then
    (ERROR_FILE_OPEN, sys)
  else if get_file_size sys.fs file1 ≠ get_file_size sys.fs file2 then
    (ERROR_FILES_DIFFER, sys)
  else
    cmpLoop ((fileLen sys.fs file1).getD 0 + 2) sys file1 file2 0

/-- The nonempty prefixes of a path, shortest first: the directories the
`create_directory` loop visits (one per slash, then the full path). -/
def pathPrefixes (p : Path) : List Path :=
  (List.range p.length).map fun i => p.take (i + 1)

/-- The body of C `create_directory`: for each prefix, skip it when it already
exists, otherwise `mkdir` it, tolerating `EEXIST` and failing on anything
else. -/
def createDirGo (sys : Sys) : List Path → Int × Sys
  | [] => (SUCCESS, sys)
  | q :: rest =>
    if path_exists sys.fs q then createDirGo sys rest
    else
      match mkdirOp sys q with
      | Except.ok sys1 => createDirGo sys1 rest
      | Except.error true => createDirGo sys rest
      | Except.error false => (ERROR_DIR_CREATE, sys)

/-- C `create_directory`: create a directory together with any missing parent
directories; components that already exist are tolerated. -/
def create_directory (sys : Sys) (p : Path) : Int × Sys :=
  createDirGo sys (pathPrefixes p)

/-- The child entry names of a directory, in filesystem (readdir) order; the
`.` and `..` pseudo-entries of the C `readdir` loop do not appear in the
model's listing. -/
def childNames (fs : FS) (p : Path) : List String :=
  fs.filterMap fun e =>
    if e.1.dropLast = p ∧ e.1 ≠ [] then e.1.getLast? else none

/-- `opendir` + `readdir`: the entry names when the path is a directory. -/
def opendirOp (fs : FS) (p : Path) : Option (List String) :=
  if is_directory fs p then some (childNames fs p) else none

/-- The `readdir` iteration of C `copy_directory` over the entry names,
parameterised by the recursive directory-copy call. -/
def copyEntriesF (cpy : Sys → Path → Path → Int × Sys) :
    Sys → Path → Path → List String → Int × Sys
  | sys, _, _, [] => (SUCCESS, sys)
  | sys, src, dest, name :: rest =>
    let sf := src ++ [name]
    let df := dest ++ [name]
    if is_directory sys.fs sf then
      let r := cpy sys sf df
      if r.1 ≠ SUCCESS then r else copyEntriesF cpy r.2 src dest rest
    else
      let r := copy_file sys sf df
      if r.1 ≠ SUCCESS then r else copyEntriesF cpy r.2 src dest rest

/-- C `copy_directory`: create the destination directory (with parents), open
the source directory, then copy every entry, recursing into subdirectories
and aborting on the first error. -/
def copy_directory : Nat → Sys → Path → Path → Int × Sys
  | 0, sys, _, _ => (ERROR_DIR_OPEN, sys)
  | fuel + 1, sys, src, dest =>
    let r := create_directory sys dest
    if r.1 ≠ SUCCESS then r
    else
      match opendirOp r.2.fs src with
      | none => (ERROR_DIR_OPEN, r.2)
      | some names => copyEntriesF (copy_directory fuel) r.2 src dest names

/-- The `readdir` iteration of `copy_directory` at a given recursion budget. -/
def copyEntries (fuel : Nat) : Sys → Path → Path → List String → Int × Sys :=
  copyEntriesF (copy_directory fuel)

/-- The `readdir` iteration of C `remove_directory` over the entry names,
parameterised by the recursive directory-removal call. -/
def removeEntriesF (rmv : Sys → Path → Int × Sys) : Sys → Path → List String → Sys
  | sys, _, [] => sys
  | sys, path, name :: rest =>
    let fp := path ++ [name]
    let sys1 :=
      if is_directory sys.fs fp then (rmv sys fp).2
      else (unlinkOp sys fp).2
    removeEntriesF rmv sys1 path rest

/-- C `remove_directory`: recursively delete a directory tree.  Faithfully to
the C code, the results of the recursive calls, of every `unlink` and of the
final `rmdir` are all ignored; only a failure to open the top-level directory
is reported. -/
def remove_directory : Nat → Sys → Path → Int × Sys
  | 0, sys, _ => (ERROR_DIR_OPEN, sys)
  | fuel + 1, sys, path =>
    match opendirOp sys.fs path with
    | none => (ERROR_DIR_OPEN, sys)
    | some names =>
      let sys1 := removeEntriesF (remove_directory fuel) sys path names
      (SUCCESS, (rmdirOp sys1 path).2)

/-- The `readdir` iteration of `remove_directory` at a given recursion budget. -/
def removeEntries (fuel : Nat) : Sys → Path → List String → Sys :=
  removeEntriesF (remove_directory fuel)

/-- C `move_file`: try an atomic `rename`; on `EXDEV`, copy, verify with
`compare_files`, and only then delete the source; if verification fails,
delete the newly written destination path (the `unlink` result is ignored)
and report a move failure; a non-`EXDEV` rename failure is fatal with no
fallback. -/
def move_file (sys : Sys) (src_path dest_path : Path) : Int × Sys :=
  match renameOp sys src_path dest_path with
  | (Except.ok _, sys1) => (SUCCESS, sys1)
  | (Except.error e, sys1) =>
    if e = RErr.exdev then
      let r := copy_file sys1 src_path dest_path
      if r.1 ≠ SUCCESS then r
      else
        let r2 := compare_files r.2 src_path dest_path
        if r2.1 ≠ SUCCESS then
          (ERROR_MOVE_FAILED, (unlinkOp r2.2 dest_path).2)
        else
          let sys2 := { r2.2 with log := r2.2.log ++ [Ev.verifiedE src_path dest_path] }
          match unlinkOp sys2 src_path with
          | (Except.ok _, sys3) => (SUCCESS, sys3)
          | (Except.error _, sys3) => (ERROR_MOVE_FAILED, sys3)
    else (ERROR_MOVE_FAILED, sys1)

/-- C `move_directory`: try an atomic `rename`; on `EXDEV`, copy the tree and
delete the source tree with no content verification; a non-`EXDEV` rename
failure is fatal with no fallback. -/
def move_directory (fuel : Nat) (sys : Sys) (src_path dest_path : Path) : Int × Sys :=
  match renameOp sys src_path dest_path with
  | (Except.ok _, sys1) => (SUCCESS, sys1)
  | (Except.error e, sys1) =>
    if e = RErr.exdev then
      let r := copy_directory fuel sys1 src_path dest_path
      if r.1 ≠ SUCCESS then r
      else
        let r2 := remove_directory fuel r.2 src_path
        if r2.1 ≠ SUCCESS then (ERROR_MOVE_FAILED, r2.2)
        else (SUCCESS, r2.2)
    else (ERROR_MOVE_FAILED, sys1)

/-- An item of an `fnmatch` bracket expression: a single character or a
character range. -/
inductive ClassItem where
  | single (c : Char)
  | range (lo hi : Char)
deriving DecidableEq, Repr

/-- Does a character match one bracket-expression item? -/
def itemMatch (c : Char) : ClassItem → Bool
  | ClassItem.single a => c = a
  | ClassItem.range lo hi => lo.val ≤ c.val && c.val ≤ hi.val

/-- Does a character match a (possibly negated) bracket expression? -/
def classMatch (neg : Bool) (items : List ClassItem) (c : Char) : Bool :=
  let m := items.any (itemMatch c)
  if neg then !m else m

/-- Parse the items of a bracket expression up to the closing `]`, returning
the items and the rest of the pattern; `none` when the bracket is never
closed.  A `-` directly before `]` is a literal. -/
def parseItems : List Char → Option (List ClassItem × List Char)
  | [] => none
  | ']' :: rest => some ([], rest)
  | lo :: '-' :: ']' :: rest => some ([ClassItem.single lo, ClassItem.single '-'], rest)
  | lo :: '-' :: hi :: rest =>
      (parseItems rest).map fun x => (ClassItem.range lo hi :: x.1, x.2)
  | c :: rest =>
      (parseItems rest).map fun x => (ClassItem.single c :: x.1, x.2)

/-- Strip the optional leading negation marker (`!` or `^`) of a bracket
expression. -/
def stripNeg : List Char → Bool × List Char
  | [] => (false, [])
  | c :: r => if c = '!' ∨ c = '^' then (true, r) else (false, c :: r)

/-- Parse a bracket expression (the part after `[`): an optional leading `!`
or `^` negates; a `]` in first position is a literal member.
Modelled external: this and `fnmatchFuel` model the libc function
`fnmatch(pattern, string, 0)` used by `match_pattern`; POSIX named classes
such as `[:alpha:]` are not modelled. -/
def parseClass (p : List Char) : Option (Bool × List ClassItem × List Char) :=
  match stripNeg p with
  | (neg, ']' :: r2) => (parseItems r2).map fun x => (neg, ClassItem.single ']' :: x.1, x.2)
  | (neg, q) => (parseItems q).map fun x => (neg, x.1, x.2)

/-- Fuel-indexed matcher for `fnmatch(pattern, string, 0)` semantics: `*`
matches any run of characters (including the empty run), `?` matches exactly
one character, `\\` escapes the next pattern character, `[...]` is a bracket
expression (an unclosed `[` is a literal), matching is case-sensitive and
anchored.  Any fuel above `pattern.length + name.length` is sufficient. -/
def fnmatchFuel : Nat → List Char → List Char → Bool
  | 0, _, _ => false
  | fuel + 1, pat, name =>
    match pat with
    | [] => name.isEmpty
    | c :: p =>
      if c = '*' then
        fnmatchFuel fuel p name ||
          (match name with
           | [] => false
           | _ :: n2 => fnmatchFuel fuel (c :: p) n2)
      else if c = '?' then
        match name with
        | [] => false
        | _ :: n2 => fnmatchFuel fuel p n2
      else if c = '\\' then
        match p, name with
        | e :: p2, d :: n2 => d = e && fnmatchFuel fuel p2 n2
        | _, _ => false
      else if c = '[' then
        match parseClass p, name with
        | some x, d :: n2 => classMatch x.1 x.2.1 d && fnmatchFuel fuel x.2.2 n2
        | none, d :: n2 => d = '[' && fnmatchFuel fuel p n2
        | _, [] => false
      else
        match name with
        | [] => false
        | d :: n2 => d = c && fnmatchFuel fuel p n2

/-- `fnmatch(pattern, string, 0) == 0` on character lists. -/
def fnmatchChars (pat name : List Char) : Bool :=
  fnmatchFuel (pat.length + name.length + 1) pat name

/-- C `match_pattern(filename, pattern)`: `fnmatch(pattern, filename, 0) == 0`. -/
def match_pattern (filename pattern : String) : Bool :=
  fnmatchChars pattern.toList filename.toList

/-- The linear scans of `should_copy_file` over a pattern array: does any
pattern match the filename? -/
def scanMatch (filename : String) : List String → Bool
  | [] => false
  | p :: rest => if match_pattern filename p then true else scanMatch filename rest

/-- C `should_copy_file`: any matching exclude pattern rejects; with no
include patterns everything else is admitted; otherwise some include pattern
must match. -/
def should_copy_file (filename : String) (include_patterns exclude_patterns : List String) : Bool :=
  if scanMatch filename exclude_patterns then false
  else if include_patterns.isEmpty then true
  else scanMatch filename include_patterns

/-- Matcher following the SPEC's words for `matches(name, pattern)`: only `*`
and `?` are special, there are no character classes (so `[` and `\\` are
ordinary characters), case-sensitive, anchored.  Used to state the claim that
`match_pattern` implements exactly these semantics. -/
def specGlobFuel : Nat → List Char → List Char → Bool
  | 0, _, _ => false
  | fuel + 1, pat, name =>
    match pat with
    | [] => name.isEmpty
    | c :: p =>
      if c = '*' then
        specGlobFuel fuel p name ||
          (match name with
           | [] => false
           | _ :: n2 => specGlobFuel fuel (c :: p) n2)
      else if c = '?' then
        match name with
        | [] => false
        | _ :: n2 => specGlobFuel fuel p n2
      else
        match name with
        | [] => false
        | d :: n2 => d = c && specGlobFuel fuel p n2

/-- The spec's glob semantics on character lists. -/
def specGlobChars (pat name : List Char) : Bool :=
  specGlobFuel (pat.length + name.length + 1) pat name

/-- Declarative semantics of the glob dialect `match_pattern` actually
implements (`fnmatch` with flags 0): a derivation shows how the pattern
consumes the whole name — `*` consumes any run, `?` one character, `\\c`
the literal character `c`, a closed bracket expression one character matching
the class, an unclosed `[` the literal `[`, and any other character itself. -/
inductive GlobSem : List Char → List Char → Prop where
  | nil : GlobSem [] []
  | lit (c : Char) (p n : List Char) : c ≠ '*' → c ≠ '?' → c ≠ '\\' → c ≠ '[' →
      GlobSem p n → GlobSem (c :: p) (c :: n)
  | one (c : Char) (p n : List Char) : GlobSem p n → GlobSem ('?' :: p) (c :: n)
  | starSkip (p n : List Char) : GlobSem p n → GlobSem ('*' :: p) n
  | starTake (c : Char) (p n : List Char) : GlobSem ('*' :: p) n → GlobSem ('*' :: p) (c :: n)
  | esc (c : Char) (p n : List Char) : GlobSem p n → GlobSem ('\\' :: c :: p) (c :: n)
  | cls (p : List Char) (neg : Bool) (items : List ClassItem) (rest : List Char)
      (c : Char) (n : List Char) : parseClass p = some (neg, items, rest) →
      classMatch neg items c = true → GlobSem rest n → GlobSem ('[' :: p) (c :: n)
  | clsLit (p n : List Char) : parseClass p = none →
      GlobSem p n → GlobSem ('[' :: p) ('[' :: n)

/-- A list of events containing only reads and writes (no removals, renames
or verifications). -/
def rwOnly (evs : List Ev) : Prop :=
  ∀ e ∈ evs, (∃ p n, e = Ev.readE p n) ∨ (∃ p n, e = Ev.writeE p n)

/-- In the given log, every removal of the path `src` is preceded by a
successful verification of `src` against `dest` or a successful rename of
`src` to `dest`. -/
def removalPreceded (src dest : Path) (log : List Ev) : Prop :=
  ∀ i : Nat, log[i]? = some (Ev.removedE src) →
    ∃ j : Nat, j < i ∧
      (log[j]? = some (Ev.verifiedE src dest) ∨ log[j]? = some (Ev.renamedE src dest))

/-- Is the event a successful verification or rename? -/
def isVerifyOrRename : Ev → Bool
  | Ev.verifiedE _ _ => true
  | Ev.renamedE _ _ => true
  | _ => false

/-- The filesystem association list has no duplicate keys. -/
def keysNodup (fs : FS) : Prop :=
  (fs.map Prod.fst).Nodup

/-- Well-formedness of a filesystem: every strict nonempty prefix of an
entry's path is a directory (as on a real filesystem, where a file or
directory is reachable only through directories). -/
def parentClosedB (fs : FS) : Bool :=
  fs.all fun e =>
    (List.range (e.1.length - 1)).all fun i =>
      decide (fsGet fs (e.1.take (i + 1)) = some Node.dir)

/-- Fixture: a directory `s` containing one file, for the directory-move
counterexample. -/
def fsMoveDir : FS := [(["s"], Node.dir), (["s", "f"], Node.file [1] 0o644)]

/-- Fixture: an existing directory `d` next to a file `a`, for the
cross-device move-into-directory counterexample. -/
def fsMoveInto : FS := [(["d"], Node.dir), (["a"], Node.file [1] 0o600)]

/-- Fixture: a single file. -/
def fsOneFile : FS := [(["a"], Node.file [1, 2] 0o600)]

/-- Fixture: source and destination directories with disjoint contents. -/
def fsMerge : FS :=
  [(["d"], Node.dir), (["d", "y"], Node.file [7] 0o644),
   (["s"], Node.dir), (["s", "x"], Node.file [5] 0o600)]

/-- Fixture: three files for the comparison claims: `y` has a different size
from `x`; `z` has the same size as `x` but different content. -/
def fsCmp : FS :=
  [(["x"], Node.file [1] 0o644), (["y"], Node.file [1, 2] 0o644),
   (["z"], Node.file [9] 0o644)]

/-- Fixture: `fsMoveDir` with source and destination on different devices. -/
def sysMoveDir : Sys := { cleanSys fsMoveDir with crossDev := true }

/-- Fixture: a cross-device directory move whose single source-deletion
`unlink` fails (e.g. `EACCES`). -/
def sysMoveDirFail : Sys :=
  { cleanSys fsMoveDir with
      crossDev := true
      unlinkFaults := [true] }

/-- Fixture: `fsMoveInto` with source and destination on different devices. -/
def sysMoveInto : Sys := { cleanSys fsMoveInto with crossDev := true }

/-- Fixture: one file with source and destination on different devices. -/
def sysCrossOne : Sys := { cleanSys fsOneFile with crossDev := true }

/-- Fixture: a cross-device file move whose source-deletion `unlink` fails. -/
def sysCrossOneFail : Sys :=
  { cleanSys fsOneFile with
      crossDev := true
      unlinkFaults := [true] }

/-- Fixture: one file with `rename` failing for a non-`EXDEV` reason. -/
def sysRenameFail : Sys := { cleanSys fsOneFile with renameOther := true }

/-- Fixture: one file across devices where the third `read` call fails: the
fallback copy's two reads succeed, the verification's first read faults. -/
def sysVerifyFault : Sys :=
  { cleanSys fsOneFile with
      crossDev := true
      readFaults := [false, false, true] }

theorem fsGet_cons (e : Path × Node) (rest : FS) (q : Path) :
    fsGet (e :: rest) q = if e.1 = q then some e.2 else fsGet rest q := rfl

theorem fsGet_remove (fs : FS) (p q : Path) :
    fsGet (fsRemove fs p) q = if q = p then none else fsGet fs q := by
  induction fs with
  | nil => by_cases hqp : q = p <;> simp [fsRemove, fsGet, hqp]
  | cons e rest ih =>
    by_cases hep : e.1 = p
    · rw [show fsRemove (e :: rest) p = fsRemove rest p from by simp [fsRemove, hep], ih]
      by_cases hqp : q = p
      · simp [hqp]
      · have heq : e.1 ≠ q := fun h => hqp (hep ▸ h ▸ rfl)
        rw [if_neg hqp, if_neg hqp, fsGet_cons, if_neg heq]
    · rw [show fsRemove (e :: rest) p = e :: fsRemove rest p from by simp [fsRemove, hep]]
      by_cases heq : e.1 = q
      · have hqp : q ≠ p := fun h => hep (heq.trans h)
        rw [fsGet_cons, if_pos heq, if_neg hqp, fsGet_cons, if_pos heq]
      · rw [fsGet_cons, if_neg heq, ih]
        by_cases hqp : q = p
        · simp [hqp]
        · rw [if_neg hqp, if_neg hqp, fsGet_cons, if_neg heq]

theorem fsGet_set (fs : FS) (p : Path) (n : Node) (q : Path) :
    fsGet (fsSet fs p n) q = if q = p then some n else fsGet fs q := by
  unfold fsSet
  by_cases hqp : q = p
  · rw [fsGet_cons, if_pos hqp.symm, if_pos hqp]
  · rw [fsGet_cons, if_neg (fun h => hqp h.symm), fsGet_remove, if_neg hqp, if_neg hqp]

theorem fsGet_mem {fs : FS} {p : Path} {n : Node} (h : fsGet fs p = some n) :
    (p, n) ∈ fs := by
  induction fs with
  | nil => simp [fsGet] at h
  | cons e rest ih =>
    rw [fsGet_cons] at h
    by_cases hep : e.1 = p
    · rw [if_pos hep] at h
      injection h with h
      have : e = (p, n) := by
        obtain ⟨a, b⟩ := e
        simp only at hep h
        rw [hep, h]
      exact this ▸ List.mem_cons_self _ _
    · rw [if_neg hep] at h
      exact List.mem_cons_of_mem _ (ih h)

theorem fsGet_of_mem_nodup {fs : FS} {p : Path} {n : Node}
    (hnd : keysNodup fs) (h : (p, n) ∈ fs) : fsGet fs p = some n := by
  induction fs with
  | nil => simp at h
  | cons e rest ih =>
    have hnd2 : e.1 ∉ rest.map Prod.fst ∧ (rest.map Prod.fst).Nodup := by
      have h2 := hnd
      unfold keysNodup at h2
      rw [List.map_cons, List.nodup_cons] at h2
      exact h2
    rcases List.mem_cons.1 h with he | hrest
    · rw [← he, fsGet_cons, if_pos rfl]
    · have hep : e.1 ≠ p := by
        intro hep
        exact hnd2.1 (hep ▸ List.mem_map.2 ⟨(p, n), hrest, rfl⟩)
      rw [fsGet_cons, if_neg hep]
      exact ih hnd2.2 hrest

theorem rwOnly_nil : rwOnly [] := by
  intro e he; simp at he

theorem rwOnly_append {a b : List Ev} (ha : rwOnly a) (hb : rwOnly b) :
    rwOnly (a ++ b) := by
  intro e he
  rcases List.mem_append.1 he with h | h
  · exact ha e h
  · exact hb e h

theorem rwOnly_read (p : Path) (k : Nat) : rwOnly [Ev.readE p k] := by
  intro e he
  simp at he
  subst he
  exact Or.inl ⟨p, k, rfl⟩

theorem rwOnly_write (p : Path) (k : Nat) : rwOnly [Ev.writeE p k] := by
  intro e he
  simp at he
  subst he
  exact Or.inr ⟨p, k, rfl⟩

theorem readOp_ok {sys : Sys} {p : Path} {off : Nat} {chunk : List Nat} {sys1 : Sys}
    (h : readOp sys p off = (Except.ok chunk, sys1)) :
    sys.readFaults.head?.getD false = false ∧
    ∃ c pm, fsGet sys.fs p = some (Node.file c pm) ∧
      chunk = (c.drop off).take BUFFER_SIZE ∧
      sys1 = { sys with
               readFaults := sys.readFaults.tail
               log := sys.log ++ [Ev.readE p chunk.length] } := by
  unfold readOp at h
  by_cases hf : sys.readFaults.head?.getD false = true
  · simp [hf] at h
  · rw [Bool.not_eq_true] at hf
    simp only [hf, Bool.false_eq_true, if_false] at h
    cases hG : fsGet sys.fs p with
    | none => rw [hG] at h; simp at h
    | some n =>
      cases n with
      | dir => rw [hG] at h; simp at h
      | file c pm =>
        rw [hG] at h
        simp only [Prod.mk.injEq] at h
        obtain ⟨h1, h2⟩ := h
        injection h1 with h1
        refine ⟨hf, c, pm, rfl, h1.symm, ?_⟩
        rw [← h2, h1]

theorem readOp_state {sys : Sys} {p : Path} {off : Nat} {r : Except Unit (List Nat)}
    {sys1 : Sys} (h : readOp sys p off = (r, sys1)) :
    sys1.fs = sys.fs ∧ sys1.crossDev = sys.crossDev ∧
    sys1.renameOther = sys.renameOther ∧ sys1.unlinkFaults = sys.unlinkFaults ∧
    sys1.writeFaults = sys.writeFaults ∧ sys1.readFaults = sys.readFaults.tail ∧
    ∃ evs, sys1.log = sys.log ++ evs ∧ rwOnly evs := by
  unfold readOp at h
  by_cases hf : sys.readFaults.head?.getD false = true
  · simp only [hf, if_true] at h
    obtain ⟨-, h2⟩ := Prod.mk.injEq .. ▸ h
    rw [← h2]
    exact ⟨rfl, rfl, rfl, rfl, rfl, rfl, [], by simp, rwOnly_nil⟩
  · rw [Bool.not_eq_true] at hf
    simp only [hf, Bool.false_eq_true, if_false] at h
    cases hG : fsGet sys.fs p with
    | none =>
      rw [hG] at h
      obtain ⟨-, h2⟩ := Prod.mk.injEq .. ▸ h
      rw [← h2]
      exact ⟨rfl, rfl, rfl, rfl, rfl, rfl, [], by simp, rwOnly_nil⟩
    | some n =>
      cases n with
      | dir =>
        rw [hG] at h
        obtain ⟨-, h2⟩ := Prod.mk.injEq .. ▸ h
        rw [← h2]
        exact ⟨rfl, rfl, rfl, rfl, rfl, rfl, [], by simp, rwOnly_nil⟩
      | file c pm =>
        rw [hG] at h
        obtain ⟨-, h2⟩ := Prod.mk.injEq .. ▸ h
        rw [← h2]
        exact ⟨rfl, rfl, rfl, rfl, rfl, rfl, [Ev.readE p ((c.drop off).take BUFFER_SIZE).length],
          by simp, rwOnly_read _ _⟩

theorem writeOp_ok {sys : Sys} {p : Path} {data : List Nat} {sys1 : Sys} {u : Unit}
    (h : writeOp sys p data = (Except.ok u, sys1)) :
    sys.writeFaults.head?.getD false = false ∧
    ∃ c pm, fsGet sys.fs p = some (Node.file c pm) ∧
      sys1 = { sys with
               writeFaults := sys.writeFaults.tail
               fs := fsSet sys.fs p (Node.file (c ++ data) pm)
               log := sys.log ++ [Ev.writeE p data.length] } := by
  unfold writeOp at h
  by_cases hf : sys.writeFaults.head?.getD false = true
  · simp [hf] at h
  · rw [Bool.not_eq_true] at hf
    simp only [hf, Bool.false_eq_true, if_false] at h
    cases hG : fsGet sys.fs p with
    | none => rw [hG] at h; simp at h
    | some n =>
      cases n with
      | dir => rw [hG] at h; simp at h
      | file c pm =>
        rw [hG] at h
        simp only [Prod.mk.injEq] at h
        obtain ⟨-, h2⟩ := h
        exact ⟨hf, c, pm, rfl, h2.symm⟩

theorem writeOp_state {sys : Sys} {p : Path} {data : List Nat} {r : Except Unit Unit}
    {sys1 : Sys} (h : writeOp sys p data = (r, sys1)) :
    sys1.crossDev = sys.crossDev ∧ sys1.renameOther = sys.renameOther ∧
    sys1.unlinkFaults = sys.unlinkFaults ∧ sys1.readFaults = sys.readFaults ∧
    sys1.writeFaults = sys.writeFaults.tail ∧
    ∃ evs, sys1.log = sys.log ++ evs ∧ rwOnly evs := by
  unfold writeOp at h
  by_cases hf : sys.writeFaults.head?.getD false = true
  · simp only [hf, if_true] at h
    obtain ⟨-, h2⟩ := Prod.mk.injEq .. ▸ h
    rw [← h2]
    exact ⟨rfl, rfl, rfl, rfl, rfl, [], by simp, rwOnly_nil⟩
  · rw [Bool.not_eq_true] at hf
    simp only [hf, Bool.false_eq_true, if_false] at h
    cases hG : fsGet sys.fs p with
    | none =>
      rw [hG] at h
      obtain ⟨-, h2⟩ := Prod.mk.injEq .. ▸ h
      rw [← h2]
      exact ⟨rfl, rfl, rfl, rfl, rfl, [], by simp, rwOnly_nil⟩
    | some n =>
      cases n with
      | dir =>
        rw [hG] at h
        obtain ⟨-, h2⟩ := Prod.mk.injEq .. ▸ h
        rw [← h2]
        exact ⟨rfl, rfl, rfl, rfl, rfl, [], by simp, rwOnly_nil⟩
      | file c pm =>
        rw [hG] at h
        obtain ⟨-, h2⟩ := Prod.mk.injEq .. ▸ h
        rw [← h2]
        exact ⟨rfl, rfl, rfl, rfl, rfl, [Ev.writeE p data.length], by simp, rwOnly_write _ _⟩

theorem readOp_noFault {sys : Sys} (hrf : sys.readFaults = []) {p : Path}
    {c : List Nat} {pm : Nat} (hp : fsGet sys.fs p = some (Node.file c pm)) (off : Nat) :
    readOp sys p off =
      (Except.ok ((c.drop off).take BUFFER_SIZE),
        { sys with
          readFaults := []
          log := sys.log ++ [Ev.readE p ((c.drop off).take BUFFER_SIZE).length] }) := by
  unfold readOp
  rw [hrf]
  simp [hp]

theorem writeOp_noFault {sys : Sys} (hwf : sys.writeFaults = []) {p : Path}
    {c : List Nat} {pm : Nat} (hp : fsGet sys.fs p = some (Node.file c pm))
    (data : List Nat) :
    writeOp sys p data =
      (Except.ok (),
        { sys with
          writeFaults := []
          fs := fsSet sys.fs p (Node.file (c ++ data) pm)
          log := sys.log ++ [Ev.writeE p data.length] }) := by
  unfold writeOp
  rw [hwf]
  simp [hp]

theorem take_take_len {α : Type} (l : List α) (B : Nat) :
    l.take ((l.take B).length) = l.take B := by
  rw [List.length_take]
  rcases Nat.le_total B l.length with h | h
  · rw [Nat.min_eq_left h]
  · rw [Nat.min_eq_right h, List.take_of_length_le h, List.take_of_length_le (le_refl _)]

theorem copyLoop_state (fuel : Nat) :
    ∀ sys src fd off r sys', copyLoop fuel sys src fd off = (r, sys') →
    sys'.crossDev = sys.crossDev ∧ sys'.renameOther = sys.renameOther ∧
    sys'.unlinkFaults = sys.unlinkFaults ∧
    ∃ evs, sys'.log = sys.log ++ evs ∧ rwOnly evs := by
  induction fuel with
  | zero =>
    intro sys src fd off r sys' h
    unfold copyLoop at h
    obtain ⟨-, h2⟩ := Prod.mk.injEq .. ▸ h
    rw [← h2]
    exact ⟨rfl, rfl, rfl, [], by simp, rwOnly_nil⟩
  | succ k ih =>
    intro sys src fd off r sys' h
    unfold copyLoop at h
    rcases hr : readOp sys src off with ⟨r1, sys1⟩
    rw [hr] at h
    obtain ⟨_, hcd1, hro1, hul1, _, _, evs1, hlog1, hrw1⟩ := readOp_state hr
    cases r1 with
    | error e =>
      obtain ⟨-, h2⟩ := Prod.mk.injEq .. ▸ h
      rw [← h2]
      exact ⟨hcd1, hro1, hul1, evs1, hlog1, hrw1⟩
    | ok chunk =>
      simp only at h
      by_cases hemp : chunk.isEmpty
      · rw [if_pos hemp] at h
        obtain ⟨-, h2⟩ := Prod.mk.injEq .. ▸ h
        rw [← h2]
        exact ⟨hcd1, hro1, hul1, evs1, hlog1, hrw1⟩
      · rw [if_neg hemp] at h
        rcases hw : writeOp sys1 fd chunk with ⟨r2, sys2⟩
        rw [hw] at h
        obtain ⟨hcd2, hro2, hul2, _, _, evs2, hlog2, hrw2⟩ := writeOp_state hw
        cases r2 with
        | error e =>
          obtain ⟨-, h2⟩ := Prod.mk.injEq .. ▸ h
          rw [← h2]
          exact ⟨hcd2.trans hcd1, hro2.trans hro1, hul2.trans hul1,
            evs1 ++ evs2, by rw [hlog2, hlog1, List.append_assoc],
            rwOnly_append hrw1 hrw2⟩
        | ok u =>
          simp only at h
          obtain ⟨hcd3, hro3, hul3, evs3, hlog3, hrw3⟩ := ih _ _ _ _ _ _ h
          refine ⟨hcd3.trans (hcd2.trans hcd1), hro3.trans (hro2.trans hro1),
            hul3.trans (hul2.trans hul1), evs1 ++ evs2 ++ evs3, ?_,
            rwOnly_append (rwOnly_append hrw1 hrw2) hrw3⟩
          rw [hlog3, hlog2, hlog1]
          simp [List.append_assoc]

theorem copyLoop_success (fuel : Nat) :
    ∀ sys src fd off s ps d pd sys',
    src ≠ fd →
    fsGet sys.fs src = some (Node.file s ps) →
    fsGet sys.fs fd = some (Node.file d pd) →
    d = s.take off →
    copyLoop fuel sys src fd off = (SUCCESS, sys') →
    fsGet sys'.fs src = some (Node.file s ps) ∧
    fsGet sys'.fs fd = some (Node.file s pd) ∧
    (∀ q, q ≠ fd → fsGet sys'.fs q = fsGet sys.fs q) := by
  induction fuel with
  | zero =>
    intro sys src fd off s ps d pd sys' hne hsrc hfd hd h
    unfold copyLoop at h
    obtain ⟨h1, -⟩ := Prod.mk.injEq .. ▸ h
    exact absurd h1 (by decide)
  | succ k ih =>
    intro sys src fd off s ps d pd sys' hne hsrc hfd hd h
    unfold copyLoop at h
    rcases hr : readOp sys src off with ⟨r1, sys1⟩
    rw [hr] at h
    cases r1 with
    | error e =>
      obtain ⟨h1, -⟩ := Prod.mk.injEq .. ▸ h
      exact absurd h1 (by decide)
    | ok chunk =>
      obtain ⟨-, c, pm, hc, hchunk, hsys1⟩ := readOp_ok hr
      rw [hsrc] at hc
      injection hc with hc
      injection hc with hc1 hc2
      subst hc1; subst hc2
      have hfs1 : sys1.fs = sys.fs := by rw [hsys1]
      simp only at h
      by_cases hemp : chunk.isEmpty
      · rw [if_pos hemp] at h
        obtain ⟨-, h2⟩ := Prod.mk.injEq .. ▸ h
        have hsl : s.length ≤ off := by
          have : (s.drop off).take BUFFER_SIZE = [] := by
            rw [← hchunk]; exact List.isEmpty_iff.1 hemp
          rcases List.take_eq_nil_iff.1 this with hB | hdrop
          · exact absurd hB (by decide)
          · have := List.drop_eq_nil_iff.1 hdrop
            omega
        have hds : d = s := by rw [hd, List.take_of_length_le hsl]
        rw [← h2, hfs1]
        exact ⟨hsrc, hds ▸ hfd, fun q _ => rfl⟩
      · rw [if_neg hemp] at h
        rcases hw : writeOp sys1 fd chunk with ⟨r2, sys2⟩
        rw [hw] at h
        cases r2 with
        | error e =>
          obtain ⟨h1, -⟩ := Prod.mk.injEq .. ▸ h
          exact absurd h1 (by decide)
        | ok u =>
          simp only at h
          obtain ⟨-, c2, pm2, hc2, hsys2⟩ := writeOp_ok hw
          rw [hfs1, hfd] at hc2
          injection hc2 with hc2
          injection hc2 with hc2a hc2b
          subst hc2a; subst hc2b
          have hfs2 : sys2.fs = fsSet sys.fs fd (Node.file (d ++ chunk) pd) := by
            rw [hsys2, hfs1]
          have hnext : d ++ chunk = s.take (off + chunk.length) := by
            rw [hd, hchunk, List.take_add]
            congr 1
            exact (take_take_len _ _).symm
          have hsrc2 : fsGet sys2.fs src = some (Node.file s ps) := by
            rw [hfs2, fsGet_set, if_neg hne, hsrc]
          have hfd2 : fsGet sys2.fs fd = some (Node.file (d ++ chunk) pd) := by
            rw [hfs2, fsGet_set, if_pos rfl]
          obtain ⟨g1, g2, g3⟩ := ih _ _ _ _ _ _ _ _ _ hne hsrc2 hfd2 hnext h
          refine ⟨g1, g2, fun q hq => ?_⟩
          rw [g3 q hq, hfs2, fsGet_set, if_neg hq]

theorem copyLoop_run (fuel : Nat) :
    ∀ sys src fd off s ps d pd,
    sys.readFaults = [] → sys.writeFaults = [] →
    src ≠ fd →
    fsGet sys.fs src = some (Node.file s ps) →
    fsGet sys.fs fd = some (Node.file d pd) →
    d = s.take off →
    s.length - off < fuel →
    ∃ sys', copyLoop fuel sys src fd off = (SUCCESS, sys') ∧
      sys'.readFaults = [] ∧ sys'.writeFaults = [] := by
  induction fuel with
  | zero =>
    intro sys src fd off s ps d pd hrf hwf hne hsrc hfd hd hfuel
    omega
  | succ k ih =>
    intro sys src fd off s ps d pd hrf hwf hne hsrc hfd hd hfuel
    unfold copyLoop
    rw [readOp_noFault hrf hsrc off]
    simp only
    by_cases hoff : s.length ≤ off
    · have hdrop : s.drop off = [] := List.drop_eq_nil_iff.2 hoff
      rw [hdrop]
      simp only [List.take_nil, List.isEmpty_nil, if_true]
      exact ⟨_, rfl, rfl, hwf⟩
    · have hne2 : ((s.drop off).take BUFFER_SIZE).isEmpty = false := by
        rw [List.isEmpty_eq_false_iff_exists_mem]
        have : 0 < (s.drop off).length := by
          rw [List.length_drop]; omega
        have hlen : 0 < ((s.drop off).take BUFFER_SIZE).length := by
          rw [List.length_take]
          have : 0 < BUFFER_SIZE := by decide
          omega
        exact ⟨_, List.getElem_mem hlen⟩
      rw [hne2]
      simp only [Bool.false_eq_true, if_false]
      set sysR : Sys :=
        { sys with
          readFaults := []
          log := sys.log ++ [Ev.readE src ((s.drop off).take BUFFER_SIZE).length] } with hsysR
      have hsrcR : fsGet sysR.fs src = some (Node.file s ps) := hsrc
      have hfdR : fsGet sysR.fs fd = some (Node.file d pd) := hfd
      rw [writeOp_noFault (by rw [hsysR]; exact hwf) hfdR ((s.drop off).take BUFFER_SIZE)]
      simp only
      have hchl : 0 < ((s.drop off).take BUFFER_SIZE).length := by
        rw [List.length_take, List.length_drop]
        have : 0 < BUFFER_SIZE := by decide
        omega
      have hnext : d ++ (s.drop off).take BUFFER_SIZE =
          s.take (off + ((s.drop off).take BUFFER_SIZE).length) := by
        rw [hd, List.take_add]
        congr 1
        exact (take_take_len _ _).symm
      refine ih _ _ _ _ s ps _ pd (by simp) (by simp [hwf]) hne ?_ ?_ hnext (by omega)
      · rw [fsGet_set, if_neg hne]
        exact hsrcR
      · rw [fsGet_set, if_pos rfl]

theorem openTrunc_ok {sys : Sys} {p : Path} {sys1 : Sys}
    (h : openTrunc sys p = Except.ok sys1) :
    ∃ pm, sys1 = { sys with fs := fsSet sys.fs p (Node.file [] pm) } ∧
      (∀ c pm0, fsGet sys.fs p = some (Node.file c pm0) → pm = pm0) := by
  unfold openTrunc at h
  cases hG : fsGet sys.fs p with
  | none =>
    rw [hG] at h
    by_cases hp : parentOk sys.fs p = true
    · rw [if_pos hp] at h
      injection h with h
      exact ⟨0o644, h.symm, fun c pm0 hc => by cases hc⟩
    · rw [if_neg hp] at h
      cases h
  | some n =>
    cases n with
    | dir => rw [hG] at h; cases h
    | file c0 pm0 =>
      rw [hG] at h
      injection h with h
      refine ⟨pm0, h.symm, fun c pm1 hc => ?_⟩
      injection hc with hc
      injection hc with h1 h2

theorem copyLoop_alias {fuel : Nat} {sys : Sys} {src fd : Path} {ps : Nat}
    {r : Int} {sys' : Sys} (hsf : src = fd)
    (hsrc : fsGet sys.fs src = some (Node.file [] ps))
    (h : copyLoop fuel sys src fd 0 = (r, sys')) (hr : r = SUCCESS) :
    sys'.fs = sys.fs := by
  subst hsf
  subst hr
  cases fuel with
  | zero =>
    unfold copyLoop at h
    obtain ⟨h1, -⟩ := Prod.mk.injEq .. ▸ h
    exact absurd h1 (by decide)
  | succ k =>
    unfold copyLoop at h
    rcases hrd : readOp sys src 0 with ⟨r1, sys1⟩
    rw [hrd] at h
    cases r1 with
    | error e =>
      obtain ⟨h1, -⟩ := Prod.mk.injEq .. ▸ h
      exact absurd h1 (by decide)
    | ok chunk =>
      obtain ⟨-, c, pm, hc, hchunk, hsys1⟩ := readOp_ok hrd
      rw [hsrc] at hc
      injection hc with hc
      injection hc with hc1 hc2
      subst hc1
      have hemp : chunk.isEmpty := by rw [hchunk]; rfl
      simp only at h
      rw [if_pos hemp] at h
      obtain ⟨-, h2⟩ := Prod.mk.injEq .. ▸ h
      rw [← h2, hsys1]

theorem copyLoop_dir {k : Nat} {sys : Sys} {src fd : Path} {off : Nat}
    (hsrc : fsGet sys.fs src = some Node.dir) :
    (copyLoop (k + 1) sys src fd off).1 = ERROR_FILE_READ := by
  unfold copyLoop
  rcases hrd : readOp sys src off with ⟨r1, sys1⟩
  cases r1 with
  | error e => simp
  | ok chunk =>
    obtain ⟨-, c, pm, hc, -, -⟩ := readOp_ok hrd
    rw [hsrc] at hc
    cases hc

theorem copy_file_ok {sys : Sys} {src dest : Path} {sys' : Sys}
    (h : copy_file sys src dest = (SUCCESS, sys')) :
    ∃ c pm, fsGet sys'.fs src = some (Node.file c pm) ∧
      fsGet sys'.fs (finalDest sys.fs src dest) = some (Node.file c pm) ∧
      (∀ q, q ≠ finalDest sys.fs src dest → fsGet sys'.fs q = fsGet sys.fs q) ∧
      (src ≠ finalDest sys.fs src dest → fsGet sys.fs src = some (Node.file c pm)) := by
  unfold copy_file at h
  by_cases ho : openReadOk sys.fs src = true
  case neg =>
    rw [if_pos (by simpa using ho)] at h
    obtain ⟨h1, -⟩ := Prod.mk.injEq .. ▸ h
    exact absurd h1 (by decide)
  case pos =>
  rw [if_neg (by simpa using ho)] at h
  simp only at h
  set fd := finalDest sys.fs src dest with hfd
  rcases hot : openTrunc sys fd with e | sys1
  · rw [hot] at h
    obtain ⟨h1, -⟩ := Prod.mk.injEq .. ▸ h
    exact absurd h1 (by decide)
  rw [hot] at h
  simp only at h
  obtain ⟨pmT, hsys1, hpmT⟩ := openTrunc_ok hot
  have hfs1 : sys1.fs = fsSet sys.fs fd (Node.file [] pmT) := by rw [hsys1]
  cases hG : fsGet sys.fs src with
  | none =>
    have hiss : (fsGet sys.fs src).isSome = true := ho
    rw [hG] at hiss
    cases hiss
  | some n =>
  cases n with
  | dir =>
    by_cases hsf : src = fd
    · rw [← hsf] at hot
      unfold openTrunc at hot
      rw [hG] at hot
      cases hot
    · have hsrc1 : fsGet sys1.fs src = some Node.dir := by
        rw [hfs1, fsGet_set, if_neg hsf, hG]
      have hloopErr :=
        @copyLoop_dir ((fileLen sys1.fs src).getD 0 + 1) sys1 src fd 0 hsrc1
      rcases hloop : copyLoop ((fileLen sys1.fs src).getD 0 + 2) sys1 src fd 0 with ⟨rl, sys2⟩
      rw [show (fileLen sys1.fs src).getD 0 + 2 = ((fileLen sys1.fs src).getD 0 + 1) + 1 by omega,
        hloop] at hloopErr
      rw [hloop] at h
      simp only at hloopErr
      subst hloopErr
      simp only at h
      rw [if_pos (show ERROR_FILE_READ ≠ SUCCESS by decide)] at h
      obtain ⟨h1, -⟩ := Prod.mk.injEq .. ▸ h
      exact absurd h1 (by decide)
  | file s ps =>
    by_cases hsf : src = fd
    · -- aliasing: the destination is the source itself; it was truncated
      have hpm : pmT = ps := hpmT s ps (hsf ▸ hG)
      subst hpm
      have hsrc1 : fsGet sys1.fs src = some (Node.file [] pmT) := by
        rw [hfs1, hsf, fsGet_set, if_pos rfl]
      rcases hloop : copyLoop ((fileLen sys1.fs src).getD 0 + 2) sys1 src fd 0 with ⟨rl, sys2⟩
      rw [hloop] at h
      by_cases hrl : rl = SUCCESS
      · subst hrl
        rw [if_neg (by simp)] at h
        have hfs2 : sys2.fs = sys1.fs := copyLoop_alias hsf hsrc1 hloop rfl
        have hsrc2 : fsGet sys2.fs src = some (Node.file [] pmT) := by rw [hfs2]; exact hsrc1
        have hfd2 : fsGet sys2.fs fd = some (Node.file [] pmT) := hsf ▸ hsrc2
        rw [hsrc2, hfd2] at h
        simp only at h
        obtain ⟨-, h2⟩ := Prod.mk.injEq .. ▸ h
        refine ⟨[], pmT, ?_, ?_, ?_, fun hne => absurd hsf hne⟩
        · rw [← h2]
          simp only
          rw [hsf, fsGet_set, if_pos rfl]
        · rw [← h2]
          simp only
          rw [fsGet_set, if_pos rfl]
        · intro q hq
          rw [← h2]
          simp only
          rw [fsGet_set, if_neg hq, hfs2, hfs1, fsGet_set, if_neg hq]
      · rw [if_pos (by simpa using hrl)] at h
        obtain ⟨h1, -⟩ := Prod.mk.injEq .. ▸ h
        exact absurd h1 hrl
    · -- ordinary copy to a distinct destination path
      have hsrc1 : fsGet sys1.fs src = some (Node.file s ps) := by
        rw [hfs1, fsGet_set, if_neg hsf, hG]
      have hfd1 : fsGet sys1.fs fd = some (Node.file [] pmT) := by
        rw [hfs1, fsGet_set, if_pos rfl]
      rcases hloop : copyLoop ((fileLen sys1.fs src).getD 0 + 2) sys1 src fd 0 with ⟨rl, sys2⟩
      rw [hloop] at h
      by_cases hrl : rl = SUCCESS
      · subst hrl
        rw [if_neg (by simp)] at h
        obtain ⟨g1, g2, g3⟩ :=
          copyLoop_success _ _ _ _ _ _ _ _ _ _ hsf hsrc1 hfd1 (by simp) hloop
        rw [g1, g2] at h
        simp only at h
        obtain ⟨-, h2⟩ := Prod.mk.injEq .. ▸ h
        refine ⟨s, ps, ?_, ?_, ?_, fun _ => rfl⟩
        · rw [← h2]
          simp only
          rw [fsGet_set, if_neg hsf, g1]
        · rw [← h2]
          simp only
          rw [fsGet_set, if_pos rfl]
        · intro q hq
          rw [← h2]
          simp only
          rw [fsGet_set, if_neg hq, g3 q hq, hfs1, fsGet_set, if_neg hq]
      · rw [if_pos (by simpa using hrl)] at h
        obtain ⟨h1, -⟩ := Prod.mk.injEq .. ▸ h
        exact absurd h1 hrl

theorem copy_file_state {sys : Sys} {src dest : Path} {r : Int} {sys' : Sys}
    (h : copy_file sys src dest = (r, sys')) :
    sys'.crossDev = sys.crossDev ∧ sys'.renameOther = sys.renameOther ∧
    sys'.unlinkFaults = sys.unlinkFaults ∧
    ∃ evs, sys'.log = sys.log ++ evs ∧ rwOnly evs := by
  unfold copy_file at h
  by_cases ho : openReadOk sys.fs src = true
  case neg =>
    rw [if_pos (by simpa using ho)] at h
    obtain ⟨-, h2⟩ := Prod.mk.injEq .. ▸ h
    rw [← h2]
    exact ⟨rfl, rfl, rfl, [], by simp, rwOnly_nil⟩
  case pos =>
  rw [if_neg (by simpa using ho)] at h
  simp only at h
  rcases hot : openTrunc sys (finalDest sys.fs src dest) with e | sys1
  · rw [hot] at h
    obtain ⟨-, h2⟩ := Prod.mk.injEq .. ▸ h
    rw [← h2]
    exact ⟨rfl, rfl, rfl, [], by simp, rwOnly_nil⟩
  · rw [hot] at h
    simp only at h
    obtain ⟨pmT, hsys1, -⟩ := openTrunc_ok hot
    have henv1 : sys1.crossDev = sys.crossDev ∧ sys1.renameOther = sys.renameOther ∧
        sys1.unlinkFaults = sys.unlinkFaults ∧ sys1.log = sys.log := by
      rw [hsys1]
      exact ⟨rfl, rfl, rfl, rfl⟩
    rcases hloop : copyLoop ((fileLen sys1.fs src).getD 0 + 2) sys1 src
        (finalDest sys.fs src dest) 0 with ⟨rl, sys2⟩
    rw [hloop] at h
    obtain ⟨hc2, hr2, hu2, evs, hlog2, hrw⟩ := copyLoop_state _ _ _ _ _ _ _ hloop
    have hlogC : sys2.log = sys.log ++ evs := by rw [hlog2, henv1.2.2.2]
    by_cases hrl : rl = SUCCESS
    · subst hrl
      rw [if_neg (by simp)] at h
      split at h
      · obtain ⟨-, h2⟩ := Prod.mk.injEq .. ▸ h
        rw [← h2]
        exact ⟨hc2.trans henv1.1, hr2.trans henv1.2.1, hu2.trans henv1.2.2.1,
          evs, hlogC, hrw⟩
      · obtain ⟨-, h2⟩ := Prod.mk.injEq .. ▸ h
        rw [← h2]
        exact ⟨hc2.trans henv1.1, hr2.trans henv1.2.1, hu2.trans henv1.2.2.1,
          evs, hlogC, hrw⟩
    · rw [if_pos (by simpa using hrl)] at h
      obtain ⟨-, h2⟩ := Prod.mk.injEq .. ▸ h
      rw [← h2]
      exact ⟨hc2.trans henv1.1, hr2.trans henv1.2.1, hu2.trans henv1.2.2.1,
        evs, hlogC, hrw⟩

theorem copy_file_fresh {sys : Sys} {src dest : Path} {s : List Nat} {ps : Nat}
    (hrf : sys.readFaults = []) (hwf : sys.writeFaults = [])
    (hsrc : fsGet sys.fs src = some (Node.file s ps))
    (hdest : fsGet sys.fs dest = none)
    (hpar : parentOk sys.fs dest = true) :
    ∃ sys', copy_file sys src dest = (SUCCESS, sys') ∧
      fsGet sys'.fs dest = some (Node.file s ps) ∧
      (∀ q, q ≠ dest → fsGet sys'.fs q = fsGet sys.fs q) ∧
      sys'.readFaults = [] ∧ sys'.writeFaults = [] ∧
      sys'.unlinkFaults = sys.unlinkFaults ∧
      sys'.crossDev = sys.crossDev ∧ sys'.renameOther = sys.renameOther := by
  have hne : src ≠ dest := fun hEq => by rw [hEq, hdest] at hsrc; cases hsrc
  have hfdEq : finalDest sys.fs src dest = dest := by
    unfold finalDest is_directory
    rw [hdest]
    simp
  have hot : openTrunc sys dest =
      Except.ok { sys with fs := fsSet sys.fs dest (Node.file [] 0o644) } := by
    unfold openTrunc
    rw [hdest, if_pos hpar]
  set sysT : Sys := { sys with fs := fsSet sys.fs dest (Node.file [] 0o644) } with hsysT
  have hsrcT : fsGet sysT.fs src = some (Node.file s ps) := by
    show fsGet (fsSet sys.fs dest (Node.file [] 0o644)) src = _
    rw [fsGet_set, if_neg hne, hsrc]
  have hdestT : fsGet sysT.fs dest = some (Node.file [] 0o644) := by
    show fsGet (fsSet sys.fs dest (Node.file [] 0o644)) dest = _
    rw [fsGet_set, if_pos rfl]
  have hflT : fileLen sysT.fs src = some s.length := by
    unfold fileLen
    rw [hsrcT]
  obtain ⟨sys2, hloop, hrf2, hwf2⟩ :=
    copyLoop_run (s.length + 2) sysT src dest 0 s ps [] 0o644 hrf hwf hne hsrcT hdestT
      (by simp) (by omega)
  obtain ⟨g1, g2, g3⟩ :=
    copyLoop_success _ _ _ _ _ _ _ _ _ _ hne hsrcT hdestT (by simp) hloop
  obtain ⟨hc2, hr2, hu2, evs, hlog2, hrw⟩ := copyLoop_state _ _ _ _ _ _ _ hloop
  refine ⟨{ sys2 with fs := fsSet sys2.fs dest (Node.file s ps) }, ?_, ?_, ?_, hrf2, hwf2,
    hu2, hc2, hr2⟩
  · unfold copy_file
    rw [if_neg (not_not_intro (show openReadOk sys.fs src = true by
      show (fsGet sys.fs src).isSome = true
      rw [hsrc]
      rfl))]
    simp only
    rw [hfdEq, hot]
    simp only
    rw [show fileLen sysT.fs src = some s.length from hflT]
    simp only [Option.getD_some]
    rw [hloop]
    simp only
    rw [if_neg (by simp)]
    rw [g1, g2]
  · rw [fsGet_set, if_pos rfl]
  · intro q hq
    rw [fsGet_set, if_neg hq, g3 q hq]
    show fsGet (fsSet sys.fs dest (Node.file [] 0o644)) q = _
    rw [fsGet_set, if_neg hq]

theorem cmpLoop_state (fuel : Nat) :
    ∀ sys f1 f2 off r sys', cmpLoop fuel sys f1 f2 off = (r, sys') →
    sys'.fs = sys.fs ∧ sys'.crossDev = sys.crossDev ∧
    sys'.renameOther = sys.renameOther ∧ sys'.unlinkFaults = sys.unlinkFaults ∧
    sys'.writeFaults = sys.writeFaults ∧
    ∃ evs, sys'.log = sys.log ++ evs ∧ rwOnly evs := by
  induction fuel with
  | zero =>
    intro sys f1 f2 off r sys' h
    unfold cmpLoop at h
    obtain ⟨-, h2⟩ := Prod.mk.injEq .. ▸ h
    rw [← h2]
    exact ⟨rfl, rfl, rfl, rfl, rfl, [], by simp, rwOnly_nil⟩
  | succ k ih =>
    intro sys f1 f2 off r sys' h
    unfold cmpLoop at h
    simp only at h
    rcases hr1 : readOp sys f1 off with ⟨r1, sysA⟩
    rw [hr1] at h
    obtain ⟨hfsA, hcdA, hroA, hulA, hwfA, -, evsA, hlogA, hrwA⟩ := readOp_state hr1
    rcases hr2 : readOp sysA f2 off with ⟨r2, sysB⟩
    rw [hr2] at h
    obtain ⟨hfsB, hcdB, hroB, hulB, hwfB, -, evsB, hlogB, hrwB⟩ := readOp_state hr2
    have hcomp : sysB.fs = sys.fs ∧ sysB.crossDev = sys.crossDev ∧
        sysB.renameOther = sys.renameOther ∧ sysB.unlinkFaults = sys.unlinkFaults ∧
        sysB.writeFaults = sys.writeFaults ∧
        ∃ evs, sysB.log = sys.log ++ evs ∧ rwOnly evs :=
      ⟨hfsB.trans hfsA, hcdB.trans hcdA, hroB.trans hroA, hulB.trans hulA,
        hwfB.trans hwfA, evsA ++ evsB,
        by rw [hlogB, hlogA, List.append_assoc], rwOnly_append hrwA hrwB⟩
    cases r1 with
    | error e =>
      cases r2 with
      | error e2 =>
        obtain ⟨-, h2⟩ := Prod.mk.injEq .. ▸ h
        rw [← h2]
        exact hcomp
      | ok c2 =>
        obtain ⟨-, h2⟩ := Prod.mk.injEq .. ▸ h
        rw [← h2]
        exact hcomp
    | ok c1 =>
      cases r2 with
      | error e2 =>
        obtain ⟨-, h2⟩ := Prod.mk.injEq .. ▸ h
        rw [← h2]
        exact hcomp
      | ok c2 =>
        simp only at h
        by_cases hlen : c1.length ≠ c2.length
        · rw [if_pos hlen] at h
          obtain ⟨-, h2⟩ := Prod.mk.injEq .. ▸ h
          rw [← h2]
          exact hcomp
        · rw [if_neg hlen] at h
          by_cases hemp : c1.isEmpty
          · rw [if_pos hemp] at h
            obtain ⟨-, h2⟩ := Prod.mk.injEq .. ▸ h
            rw [← h2]
            exact hcomp
          · rw [if_neg hemp] at h
            by_cases hne : c1 ≠ c2
            · rw [if_pos hne] at h
              obtain ⟨-, h2⟩ := Prod.mk.injEq .. ▸ h
              rw [← h2]
              exact hcomp
            · rw [if_neg hne] at h
              obtain ⟨hf3, hcd3, hro3, hul3, hwf3, evs3, hlog3, hrw3⟩ :=
                ih _ _ _ _ _ _ h
              obtain ⟨hfB, hcB, hrB, huB, hwB, evsAB, hlogAB, hrwAB⟩ := hcomp
              exact ⟨hf3.trans hfB, hcd3.trans hcB, hro3.trans hrB, hul3.trans huB,
                hwf3.trans hwB, evsAB ++ evs3,
                by rw [hlog3, hlogAB, List.append_assoc], rwOnly_append hrwAB hrw3⟩

theorem cmpLoop_eq (fuel : Nat) :
    ∀ sys f1 f2 off c1 p1 c2 p2,
    sys.readFaults = [] →
    fsGet sys.fs f1 = some (Node.file c1 p1) →
    fsGet sys.fs f2 = some (Node.file c2 p2) →
    c1.length = c2.length →
    c1.length - off < fuel →
    (((cmpLoop fuel sys f1 f2 off).1 = SUCCESS) ↔ c1.drop off = c2.drop off) ∧
    ((cmpLoop fuel sys f1 f2 off).1 = SUCCESS ∨
      (cmpLoop fuel sys f1 f2 off).1 = ERROR_FILES_DIFFER) := by
  induction fuel with
  | zero =>
    intro sys f1 f2 off c1 p1 c2 p2 hrf h1 h2 hlen hfuel
    omega
  | succ k ih =>
    intro sys f1 f2 off c1 p1 c2 p2 hrf h1 h2 hlen hfuel
    unfold cmpLoop
    rw [readOp_noFault hrf h1 off]
    simp only
    set sysA : Sys :=
      { sys with
        readFaults := []
        log := sys.log ++ [Ev.readE f1 ((c1.drop off).take BUFFER_SIZE).length] } with hsysA
    have h2A : fsGet sysA.fs f2 = some (Node.file c2 p2) := h2
    rw [readOp_noFault (show sysA.readFaults = [] from rfl) h2A off]
    simp only
    have hchlen : ((c1.drop off).take BUFFER_SIZE).length =
        ((c2.drop off).take BUFFER_SIZE).length := by
      rw [List.length_take, List.length_take, List.length_drop, List.length_drop, hlen]
    rw [if_neg (by rw [hchlen]; simp)]
    by_cases hemp : ((c1.drop off).take BUFFER_SIZE).isEmpty
    · rw [if_pos hemp]
      have hd1 : c1.drop off = [] := by
        rcases List.take_eq_nil_iff.1 (List.isEmpty_iff.1 hemp) with hB | hd
        · exact absurd hB (by decide)
        · exact hd
      have hd2 : c2.drop off = [] := by
        have := List.drop_eq_nil_iff.1 hd1
        exact List.drop_eq_nil_iff.2 (by omega)
      exact ⟨⟨fun _ => by rw [hd1, hd2], fun _ => rfl⟩, Or.inl rfl⟩
    · rw [if_neg hemp]
      by_cases hneq : (c1.drop off).take BUFFER_SIZE ≠ (c2.drop off).take BUFFER_SIZE
      · rw [if_pos hneq]
        have hdropsne : c1.drop off ≠ c2.drop off := by
          intro hEq
          exact hneq (by rw [hEq])
        exact ⟨⟨fun hS => absurd (show ERROR_FILES_DIFFER = SUCCESS from hS) (by decide),
          fun hEq => absurd hEq hdropsne⟩, Or.inr rfl⟩
      · rw [if_neg hneq]
        push_neg at hneq
        have hlt : 0 < ((c1.drop off).take BUFFER_SIZE).length := by
          rcases Nat.eq_zero_or_pos ((c1.drop off).take BUFFER_SIZE).length with hz | hp
          · exact absurd (List.isEmpty_iff.2 (List.length_eq_zero.1 hz)) hemp
          · exact hp
        set sysB : Sys :=
          { sysA with
            readFaults := []
            log := sysA.log ++ [Ev.readE f2 ((c2.drop off).take BUFFER_SIZE).length] }
        have h1B : fsGet sysB.fs f1 = some (Node.file c1 p1) := h1
        have h2B : fsGet sysB.fs f2 = some (Node.file c2 p2) := h2
        have harith : c1.length - (off + ((c1.drop off).take BUFFER_SIZE).length) < k := by
          have hlen1 : ((c1.drop off).take BUFFER_SIZE).length =
              min BUFFER_SIZE (c1.length - off) := by
            rw [List.length_take, List.length_drop]
          omega
        obtain ⟨hiff, hdisj⟩ := ih sysB f1 f2 (off + ((c1.drop off).take BUFFER_SIZE).length)
          c1 p1 c2 p2 rfl h1B h2B hlen harith
        have hdec1 : c1.drop off =
            (c1.drop off).take BUFFER_SIZE ++
              c1.drop (off + ((c1.drop off).take BUFFER_SIZE).length) := by
          have hdd : c1.drop (off + ((c1.drop off).take BUFFER_SIZE).length) =
              (c1.drop off).drop ((c1.drop off).take BUFFER_SIZE).length := by
            rw [List.drop_drop]
          rw [hdd]
          conv_lhs => rw [← List.take_append_drop ((c1.drop off).take BUFFER_SIZE).length
            (c1.drop off)]
          rw [take_take_len]
        have hdec2 : c2.drop off =
            (c2.drop off).take BUFFER_SIZE ++
              c2.drop (off + ((c1.drop off).take BUFFER_SIZE).length) := by
          have hdd : c2.drop (off + ((c1.drop off).take BUFFER_SIZE).length) =
              (c2.drop off).drop ((c1.drop off).take BUFFER_SIZE).length := by
            rw [List.drop_drop]
          rw [hdd]
          conv_lhs => rw [← List.take_append_drop ((c1.drop off).take BUFFER_SIZE).length
            (c2.drop off)]
          rw [show ((c1.drop off).take BUFFER_SIZE).length =
            ((c2.drop off).take BUFFER_SIZE).length from hchlen, take_take_len]
        constructor
        · rw [hiff]
          constructor
          · intro hEq
            rw [hdec1, hdec2, hneq, ← hchlen, hEq]
          · intro hEq
            rw [hdec1, hdec2, hneq] at hEq
            rw [hchlen]
            exact List.append_cancel_left hEq
        · exact hdisj

theorem compare_files_szdiff {sys : Sys} {f1 f2 : Path}
    (h1 : path_exists sys.fs f1 = true) (h2 : path_exists sys.fs f2 = true)
    (hsz : get_file_size sys.fs f1 ≠ get_file_size sys.fs f2) :
    compare_files sys f1 f2 = (ERROR_FILES_DIFFER, sys) := by
  unfold compare_files
  rw [if_neg (by rw [h1, h2]; simp), if_pos hsz]

theorem compare_files_eqsz {sys : Sys} {f1 f2 : Path} {c1 c2 : List Nat} {p1 p2 : Nat}
    (hrf : sys.readFaults = [])
    (h1 : fsGet sys.fs f1 = some (Node.file c1 p1))
    (h2 : fsGet sys.fs f2 = some (Node.file c2 p2))
    (hlen : c1.length = c2.length) :
    (((compare_files sys f1 f2).1 = SUCCESS) ↔ c1 = c2) ∧
    ((compare_files sys f1 f2).1 = SUCCESS ∨
      (compare_files sys f1 f2).1 = ERROR_FILES_DIFFER) := by
  unfold compare_files
  rw [if_neg (by unfold path_exists; rw [h1, h2]; simp)]
  rw [if_neg (by unfold get_file_size; rw [h1, h2]; simp [hlen])]
  have hfl : fileLen sys.fs f1 = some c1.length := by unfold fileLen; rw [h1]
  rw [hfl]
  simp only [Option.getD_some]
  obtain ⟨hiff, hdisj⟩ := cmpLoop_eq (c1.length + 2) sys f1 f2 0 c1 p1 c2 p2 hrf h1 h2
    hlen (by omega)
  rw [List.drop_zero, List.drop_zero] at hiff
  exact ⟨hiff, hdisj⟩

theorem compare_files_state {sys : Sys} {f1 f2 : Path} {r : Int} {sys' : Sys}
    (h : compare_files sys f1 f2 = (r, sys')) :
    sys'.fs = sys.fs ∧ sys'.crossDev = sys.crossDev ∧
    sys'.renameOther = sys.renameOther ∧ sys'.unlinkFaults = sys.unlinkFaults ∧
    sys'.writeFaults = sys.writeFaults ∧
    ∃ evs, sys'.log = sys.log ++ evs ∧ rwOnly evs := by
  unfold compare_files at h
  split at h
  · obtain ⟨-, h2⟩ := Prod.mk.injEq .. ▸ h
    rw [← h2]
    exact ⟨rfl, rfl, rfl, rfl, rfl, [], by simp, rwOnly_nil⟩
  · split at h
    · obtain ⟨-, h2⟩ := Prod.mk.injEq .. ▸ h
      rw [← h2]
      exact ⟨rfl, rfl, rfl, rfl, rfl, [], by simp, rwOnly_nil⟩
    · exact cmpLoop_state _ _ _ _ _ _ _ h

theorem createDirGo_exists (sys : Sys) :
    ∀ l : List Path, (∀ q ∈ l, path_exists sys.fs q = true) →
    createDirGo sys l = (SUCCESS, sys) := by
  intro l
  induction l with
  | nil => intro _; rfl
  | cons q rest ih =>
    intro hall
    unfold createDirGo
    rw [if_pos (hall q (List.mem_cons_self _ _))]
    exact ih fun r hr => hall r (List.mem_cons_of_mem _ hr)

theorem parentClosed_get {fs : FS} (hpc : parentClosedB fs = true) {p : Path} {n : Node}
    (hp : fsGet fs p = some n) :
    ∀ i : Nat, i + 1 < p.length → fsGet fs (p.take (i + 1)) = some Node.dir := by
  intro i hi
  have hmem := fsGet_mem hp
  unfold parentClosedB at hpc
  rw [List.all_eq_true] at hpc
  have h1 := hpc (p, n) hmem
  rw [List.all_eq_true] at h1
  have h2 := h1 i (by rw [List.mem_range]; show i < p.length - 1; omega)
  exact of_decide_eq_true h2

theorem create_directory_noop {sys : Sys} {p : Path}
    (hpc : parentClosedB sys.fs = true) (hdir : fsGet sys.fs p = some Node.dir) :
    create_directory sys p = (SUCCESS, sys) := by
  unfold create_directory
  apply createDirGo_exists
  intro q hq
  unfold pathPrefixes at hq
  rw [List.mem_map] at hq
  obtain ⟨i, hi, hq⟩ := hq
  rw [List.mem_range] at hi
  subst hq
  by_cases hlast : i + 1 = p.length
  · rw [hlast, List.take_length]
    unfold path_exists
    rw [hdir]
    rfl
  · have hstep := parentClosed_get hpc hdir i (by omega)
    unfold path_exists
    rw [hstep]
    rfl

theorem childNames_fn_eq {e : Path × Node} {p : Path} {nm : String}
    (h : (if e.1.dropLast = p ∧ e.1 ≠ [] then e.1.getLast? else none) = some nm) :
    e.1 = p ++ [nm] := by
  by_cases hc : e.1.dropLast = p ∧ e.1 ≠ []
  · rw [if_pos hc] at h
    obtain ⟨hdl, hne⟩ := hc
    have hgl := List.getLast?_eq_getLast e.1 hne
    rw [hgl] at h
    injection h with h
    have hgoal := List.dropLast_append_getLast hne
    rw [hdl, h] at hgoal
    exact hgoal.symm
  · rw [if_neg hc] at h
    cases h

theorem mem_childNames {fs : FS} {p : Path} {nm : String} :
    nm ∈ childNames fs p ↔ ∃ nd, (p ++ [nm], nd) ∈ fs := by
  unfold childNames
  rw [List.mem_filterMap]
  constructor
  · rintro ⟨e, he, hfe⟩
    have he1 := childNames_fn_eq hfe
    exact ⟨e.2, by rw [← he1]; exact he⟩
  · rintro ⟨nd, hmem⟩
    refine ⟨(p ++ [nm], nd), hmem, ?_⟩
    rw [if_pos ⟨by simp, by simp⟩]
    simp

theorem childNames_nodup {fs : FS} (hnd : keysNodup fs) (p : Path) :
    (childNames fs p).Nodup := by
  induction fs with
  | nil => simp [childNames]
  | cons e rest ih =>
    have hnd2 : e.1 ∉ rest.map Prod.fst ∧ (rest.map Prod.fst).Nodup := by
      have h2 := hnd
      unfold keysNodup at h2
      rw [List.map_cons, List.nodup_cons] at h2
      exact h2
    have hrest := ih hnd2.2
    unfold childNames
    rw [List.filterMap_cons]
    cases hfe : (if e.1.dropLast = p ∧ e.1 ≠ [] then e.1.getLast? else none) with
    | none => exact hrest
    | some nm =>
      rw [List.nodup_cons]
      refine ⟨?_, hrest⟩
      intro hmem
      obtain ⟨nd, hnd3⟩ := (@mem_childNames rest p nm).1 hmem
      have he1 := childNames_fn_eq hfe
      exact hnd2.1 (he1 ▸ List.mem_map.2 ⟨(p ++ [nm], nd), hnd3, rfl⟩)

theorem copyEntries_flat (names : List String) :
    ∀ sys src dest,
    sys.readFaults = [] → sys.writeFaults = [] →
    src ≠ dest →
    (∀ nm ∈ names, ∃ c pm, fsGet sys.fs (src ++ [nm]) = some (Node.file c pm)) →
    fsGet sys.fs dest = some Node.dir →
    (∀ nm ∈ names, fsGet sys.fs (dest ++ [nm]) = none) →
    names.Nodup →
    ∀ fuel, ∃ sys', copyEntries fuel sys src dest names = (SUCCESS, sys') ∧
      (∀ q, (∀ nm ∈ names, q ≠ dest ++ [nm]) → fsGet sys'.fs q = fsGet sys.fs q) ∧
      (∀ nm ∈ names, ∀ c pm, fsGet sys.fs (src ++ [nm]) = some (Node.file c pm) →
        fsGet sys'.fs (dest ++ [nm]) = some (Node.file c pm)) := by
  induction names with
  | nil =>
    intro sys src dest _ _ _ _ _ _ _ fuel
    exact ⟨sys, rfl, fun q _ => rfl,
      fun nm hnm => absurd hnm (List.not_mem_nil nm)⟩
  | cons nm rest ih =>
    intro sys src dest hrf hwf hne hfiles hdest hfresh hnodup fuel
    obtain ⟨c, pm, hsf⟩ := hfiles nm (List.mem_cons_self _ _)
    have hdf : fsGet sys.fs (dest ++ [nm]) = none := hfresh nm (List.mem_cons_self _ _)
    have hnotdir : is_directory sys.fs (src ++ [nm]) = false := by
      unfold is_directory
      rw [hsf]
      rfl
    have hpar : parentOk sys.fs (dest ++ [nm]) = true := by
      unfold parentOk
      rw [List.dropLast_concat]
      simp [hdest]
    obtain ⟨sysC, hcopy, hdget, hunch, hrfC, hwfC, -, -, -⟩ :=
      copy_file_fresh hrf hwf hsf hdf hpar
    simp only [copyEntries, copyEntriesF]
    rw [hnotdir]
    simp only [Bool.false_eq_true, if_false]
    rw [hcopy]
    simp only
    rw [if_neg (by simp)]
    have hnodup2 : rest.Nodup := (List.nodup_cons.1 hnodup).2
    have hnm_rest : nm ∉ rest := (List.nodup_cons.1 hnodup).1
    have hfiles2 : ∀ m ∈ rest, ∃ c pm,
        fsGet sysC.fs (src ++ [m]) = some (Node.file c pm) := by
      intro m hm
      obtain ⟨c2, pm2, hm2⟩ := hfiles m (List.mem_cons_of_mem _ hm)
      refine ⟨c2, pm2, ?_⟩
      rw [hunch _ ?_, hm2]
      intro hq
      exact hne (List.append_inj_left' hq rfl)
    have hdest2 : fsGet sysC.fs dest = some Node.dir := by
      rw [hunch dest ?_, hdest]
      intro hq
      have h0 : dest ++ ([] : Path) = dest ++ [nm] := by rw [List.append_nil]; exact hq
      have := List.append_inj_right h0 rfl
      cases this
    have hfresh2 : ∀ m ∈ rest, fsGet sysC.fs (dest ++ [m]) = none := by
      intro m hm
      rw [hunch _ ?_, hfresh m (List.mem_cons_of_mem _ hm)]
      intro hq
      have hmn : m = nm := by
        have h0 := List.append_inj_right hq rfl
        injection h0 with h1 h2
      exact hnm_rest (hmn ▸ hm)
    obtain ⟨sysE, hrun, hunch2, hset2⟩ :=
      ih sysC src dest hrfC hwfC hne hfiles2 hdest2 hfresh2 hnodup2 fuel
    refine ⟨sysE, hrun, ?_, ?_⟩
    · intro q hq
      rw [hunch2 q (fun m hm => hq m (List.mem_cons_of_mem _ hm)),
        hunch q (hq nm (List.mem_cons_self _ _))]
    · intro m hm c2 pm2 hget
      rcases List.mem_cons.1 hm with hmn | hmr
      · subst hmn
        rw [hget] at hsf
        injection hsf with hsf
        injection hsf with hc hpm
        subst hc
        subst hpm
        rw [hunch2 _ ?_]
        · exact hdget
        · intro m2 hm2 hq
          have hm2m : m2 = m := by
            have h0 := List.append_inj_right hq rfl
            injection h0 with h1 h2
            exact h1.symm
          exact hnm_rest (hm2m ▸ hm2)
      · refine hset2 m hmr c2 pm2 ?_
        rw [hunch _ ?_, hget]
        intro hq
        exact hne (List.append_inj_left' hq rfl)

theorem copy_directory_merge {sys : Sys} {src dest : Path}
    (hpc : parentClosedB sys.fs = true) (hnd : keysNodup sys.fs)
    (hrf : sys.readFaults = []) (hwf : sys.writeFaults = [])
    (hsrc : fsGet sys.fs src = some Node.dir)
    (hdest : fsGet sys.fs dest = some Node.dir)
    (hne : src ≠ dest)
    (hkids : ∀ nm ∈ childNames sys.fs src, ∃ c pm,
        fsGet sys.fs (src ++ [nm]) = some (Node.file c pm))
    (hdisj : ∀ nm ∈ childNames sys.fs src, fsGet sys.fs (dest ++ [nm]) = none)
    (fuel : Nat) :
    ∃ sys', copy_directory (fuel + 1) sys src dest = (SUCCESS, sys') ∧
      (∀ q, (∀ nm ∈ childNames sys.fs src, q ≠ dest ++ [nm]) →
        fsGet sys'.fs q = fsGet sys.fs q) ∧
      (∀ nm ∈ childNames sys.fs src, ∀ c pm,
        fsGet sys.fs (src ++ [nm]) = some (Node.file c pm) →
        fsGet sys'.fs (dest ++ [nm]) = some (Node.file c pm)) := by
  obtain ⟨sys', hrun, hunch, hset⟩ := copyEntries_flat (childNames sys.fs src) sys src dest
    hrf hwf hne hkids hdest hdisj (childNames_nodup hnd src) fuel
  refine ⟨sys', ?_, hunch, hset⟩
  have hod : opendirOp sys.fs src = some (childNames sys.fs src) := by
    unfold opendirOp is_directory
    rw [hsrc]
    simp
  simp only [copy_directory]
  rw [create_directory_noop hpc hdest]
  simp only
  rw [if_neg (by simp), hod]
  exact hrun

theorem renameOp_fail {sys : Sys} {src dest : Path} {e : RErr} {sys2 : Sys}
    (h : renameOp sys src dest = (Except.error e, sys2)) : sys2 = sys := by
  unfold renameOp at h
  repeat' split at h
  all_goals
    first
    | (obtain ⟨-, h2⟩ := Prod.mk.injEq .. ▸ h; exact h2.symm)
    | (obtain ⟨h1, -⟩ := Prod.mk.injEq .. ▸ h; cases h1)

theorem renameOp_exdev_ne {sys : Sys} {src dest : Path} {sys2 : Sys}
    (h : renameOp sys src dest = (Except.error RErr.exdev, sys2)) : src ≠ dest := by
  intro hEq
  subst hEq
  unfold renameOp at h
  split at h
  · obtain ⟨h1, -⟩ := Prod.mk.injEq .. ▸ h
    injection h1 with h1
    cases h1
  · split at h
    · obtain ⟨h1, -⟩ := Prod.mk.injEq .. ▸ h
      injection h1 with h1
      cases h1
    · split at h
      · obtain ⟨h1, -⟩ := Prod.mk.injEq .. ▸ h
        cases h1
      · next hss => exact hss rfl

theorem renameOp_ok_log {sys : Sys} {src dest : Path} {u : Unit} {sys1 : Sys}
    (h : renameOp sys src dest = (Except.ok u, sys1)) :
    sys1.log = sys.log ++ [Ev.renamedE src dest] := by
  unfold renameOp at h
  repeat' split at h
  all_goals
    first
    | (obtain ⟨-, h2⟩ := Prod.mk.injEq .. ▸ h; rw [← h2]; done)
    | (obtain ⟨h1, -⟩ := Prod.mk.injEq .. ▸ h; cases h1)

theorem parseItems_len : ∀ (l : List Char) (k : List ClassItem) (r : List Char),
    parseItems l = some (k, r) → r.length < l.length := by
  intro l
  induction l using parseItems.induct <;> intro k r h <;> simp [parseItems] at h
  case case2 => rw [← h.2]; simp
  case case3 => rw [← h.2]; simp; omega
  all_goals
    obtain ⟨x, hx, hxr⟩ := h
    rename_i ih
    have h2 := ih _ _ hx
    simp
    omega

theorem stripNeg_len (p : List Char) : (stripNeg p).2.length ≤ p.length := by
  cases p with
  | nil => simp [stripNeg]
  | cons c r =>
    simp only [stripNeg]
    by_cases hc : c = '!' ∨ c = '^'
    · rw [if_pos hc]
      simp
    · rw [if_neg hc]

theorem parseClass_len {p : List Char} {neg : Bool} {items : List ClassItem}
    {rest : List Char} (h : parseClass p = some (neg, items, rest)) :
    rest.length ≤ p.length := by
  have hsl := stripNeg_len p
  unfold parseClass at h
  split at h
  · next neg2 r2 heq =>
    rw [Option.map_eq_some'] at h
    obtain ⟨x, hx, hfx⟩ := h
    have hlt := parseItems_len r2 x.1 x.2 (by rw [hx])
    have hr : rest = x.2 := (congrArg (fun t => t.2.2) hfx).symm
    rw [heq] at hsl
    simp at hsl
    rw [hr]
    omega
  · next neg2 q hnomatch hscrut =>
    rw [Option.map_eq_some'] at h
    obtain ⟨x, hx, hfx⟩ := h
    have hlt := parseItems_len q x.1 x.2 (by rw [hx])
    have hr : rest = x.2 := (congrArg (fun t => t.2.2) hfx).symm
    rw [hscrut] at hsl
    simp at hsl
    rw [hr]
    omega

theorem fnmatchFuel_zero (p n : List Char) : fnmatchFuel 0 p n = false := rfl

theorem fnmatchFuel_nil (f : Nat) (n : List Char) :
    fnmatchFuel (f + 1) [] n = n.isEmpty := rfl

theorem fnmatchFuel_star (f : Nat) (p n : List Char) :
    fnmatchFuel (f + 1) ('*' :: p) n =
      (fnmatchFuel f p n ||
        match n with
        | [] => false
        | _ :: n2 => fnmatchFuel f ('*' :: p) n2) := rfl

theorem fnmatchFuel_q (f : Nat) (p n : List Char) :
    fnmatchFuel (f + 1) ('?' :: p) n =
      (match n with
       | [] => false
       | _ :: n2 => fnmatchFuel f p n2) := rfl

theorem fnmatchFuel_esc (f : Nat) (p n : List Char) :
    fnmatchFuel (f + 1) ('\\' :: p) n =
      (match p, n with
       | e :: p2, d :: n2 => d = e && fnmatchFuel f p2 n2
       | _, _ => false) := rfl

theorem fnmatchFuel_cls (f : Nat) (p n : List Char) :
    fnmatchFuel (f + 1) ('[' :: p) n =
      (match parseClass p, n with
       | some x, d :: n2 => classMatch x.1 x.2.1 d && fnmatchFuel f x.2.2 n2
       | none, d :: n2 => d = '[' && fnmatchFuel f p n2
       | _, [] => false) := rfl

theorem fnmatchFuel_lit (f : Nat) (c : Char) (p n : List Char)
    (h1 : ¬ c = '*') (h2 : ¬ c = '?') (h3 : ¬ c = '\\') (h4 : ¬ c = '[') :
    fnmatchFuel (f + 1) (c :: p) n =
      (match n with
       | [] => false
       | d :: n2 => d = c && fnmatchFuel f p n2) := by
  show (if c = '*' then _ else if c = '?' then _ else if c = '\\' then _
    else if c = '[' then _ else _) = _
  rw [if_neg h1, if_neg h2, if_neg h3, if_neg h4]

theorem fnmatchFuel_mono : ∀ f1 : Nat, ∀ (f2 : Nat) (pat name : List Char), f1 ≤ f2 →
    fnmatchFuel f1 pat name = true → fnmatchFuel f2 pat name = true := by
  intro f1
  induction f1 with
  | zero =>
    intro f2 pat name _ h
    rw [fnmatchFuel_zero] at h
    cases h
  | succ g ih =>
    intro f2 pat name hle h
    cases f2 with
    | zero => omega
    | succ f2g =>
      have hgle : g ≤ f2g := by omega
      cases pat with
      | nil =>
        rw [fnmatchFuel_nil] at h ⊢
        exact h
      | cons c p =>
        by_cases h1 : c = '*'
        · subst h1
          rw [fnmatchFuel_star, Bool.or_eq_true] at h ⊢
          rcases h with hl | hr
          · exact Or.inl (ih _ _ _ hgle hl)
          · cases name with
            | nil => cases hr
            | cons d n2 => exact Or.inr (ih _ _ _ hgle hr)
        · by_cases h2 : c = '?'
          · subst h2
            rw [fnmatchFuel_q] at h ⊢
            cases name with
            | nil => cases h
            | cons d n2 => exact ih _ _ _ hgle h
          · by_cases h3 : c = '\\'
            · subst h3
              rw [fnmatchFuel_esc] at h ⊢
              cases p with
              | nil => cases h
              | cons e p2 =>
                cases name with
                | nil => cases h
                | cons d n2 =>
                  rw [Bool.and_eq_true] at h
                  rw [show ((match e :: p2, d :: n2 with
                    | e :: p2, d :: n2 => d = e && fnmatchFuel f2g p2 n2
                    | _, _ => false) : Bool) =
                    (d = e && fnmatchFuel f2g p2 n2) from rfl, Bool.and_eq_true]
                  exact ⟨h.1, ih _ _ _ hgle h.2⟩
            · by_cases h4 : c = '['
              · subst h4
                rw [fnmatchFuel_cls] at h ⊢
                cases hpc : parseClass p with
                | some x =>
                  rw [hpc] at h
                  cases name with
                  | nil => cases h
                  | cons d n2 =>
                    rw [show ((match (some x : Option (Bool × List ClassItem × List Char)),
                      d :: n2 with
                      | some x, d :: n2 => classMatch x.1 x.2.1 d && fnmatchFuel g x.2.2 n2
                      | none, d :: n2 => d = '[' && fnmatchFuel g p n2
                      | _, [] => false) : Bool) =
                      (classMatch x.1 x.2.1 d && fnmatchFuel g x.2.2 n2) from rfl,
                      Bool.and_eq_true] at h
                    rw [show ((match (some x : Option (Bool × List ClassItem × List Char)),
                      d :: n2 with
                      | some x, d :: n2 => classMatch x.1 x.2.1 d && fnmatchFuel f2g x.2.2 n2
                      | none, d :: n2 => d = '[' && fnmatchFuel f2g p n2
                      | _, [] => false) : Bool) =
                      (classMatch x.1 x.2.1 d && fnmatchFuel f2g x.2.2 n2) from rfl,
                      Bool.and_eq_true]
                    exact ⟨h.1, ih _ _ _ hgle h.2⟩
                | none =>
                  rw [hpc] at h
                  cases name with
                  | nil => cases h
                  | cons d n2 =>
                    rw [show ((match (none : Option (Bool × List ClassItem × List Char)),
                      d :: n2 with
                      | some x, d :: n2 => classMatch x.1 x.2.1 d && fnmatchFuel g x.2.2 n2
                      | none, d :: n2 => d = '[' && fnmatchFuel g p n2
                      | _, [] => false) : Bool) =
                      (d = '[' && fnmatchFuel g p n2) from rfl, Bool.and_eq_true] at h
                    rw [show ((match (none : Option (Bool × List ClassItem × List Char)),
                      d :: n2 with
                      | some x, d :: n2 => classMatch x.1 x.2.1 d && fnmatchFuel f2g x.2.2 n2
                      | none, d :: n2 => d = '[' && fnmatchFuel f2g p n2
                      | _, [] => false) : Bool) =
                      (d = '[' && fnmatchFuel f2g p n2) from rfl, Bool.and_eq_true]
                    exact ⟨h.1, ih _ _ _ hgle h.2⟩
              · rw [fnmatchFuel_lit g c p name h1 h2 h3 h4] at h
                rw [fnmatchFuel_lit f2g c p name h1 h2 h3 h4]
                cases name with
                | nil => cases h
                | cons d n2 =>
                  rw [Bool.and_eq_true] at h
                  rw [show ((match d :: n2 with
                    | [] => false
                    | d :: n2 => d = c && fnmatchFuel f2g p n2) : Bool) =
                    (d = c && fnmatchFuel f2g p n2) from rfl, Bool.and_eq_true]
                  exact ⟨h.1, ih _ _ _ hgle h.2⟩

theorem fnmatchFuel_sem : ∀ (f : Nat) (pat name : List Char),
    fnmatchFuel f pat name = true → GlobSem pat name := by
  intro f
  induction f with
  | zero =>
    intro pat name h
    rw [fnmatchFuel_zero] at h
    cases h
  | succ g ih =>
    intro pat name h
    cases pat with
    | nil =>
      rw [fnmatchFuel_nil] at h
      have hn : name = [] := List.isEmpty_iff.1 h
      subst hn
      exact GlobSem.nil
    | cons c p =>
      by_cases h1 : c = '*'
      · subst h1
        rw [fnmatchFuel_star, Bool.or_eq_true] at h
        rcases h with hl | hr
        · exact GlobSem.starSkip p name (ih _ _ hl)
        · cases name with
          | nil => cases hr
          | cons d n2 => exact GlobSem.starTake d p n2 (ih _ _ hr)
      · by_cases h2 : c = '?'
        · subst h2
          rw [fnmatchFuel_q] at h
          cases name with
          | nil => cases h
          | cons d n2 => exact GlobSem.one d p n2 (ih _ _ h)
        · by_cases h3 : c = '\\'
          · subst h3
            rw [fnmatchFuel_esc] at h
            cases p with
            | nil => cases h
            | cons e p2 =>
              cases name with
              | nil => cases h
              | cons d n2 =>
                rw [show ((match e :: p2, d :: n2 with
                  | e :: p2, d :: n2 => d = e && fnmatchFuel g p2 n2
                  | _, _ => false) : Bool) =
                  (d = e && fnmatchFuel g p2 n2) from rfl, Bool.and_eq_true] at h
                have hde : d = e := of_decide_eq_true h.1
                subst hde
                exact GlobSem.esc d p2 n2 (ih _ _ h.2)
          · by_cases h4 : c = '['
            · subst h4
              rw [fnmatchFuel_cls] at h
              cases hpc : parseClass p with
              | some x =>
                rw [hpc] at h
                cases name with
                | nil => cases h
                | cons d n2 =>
                  rw [show ((match (some x : Option (Bool × List ClassItem × List Char)),
                    d :: n2 with
                    | some x, d :: n2 => classMatch x.1 x.2.1 d && fnmatchFuel g x.2.2 n2
                    | none, d :: n2 => d = '[' && fnmatchFuel g p n2
                    | _, [] => false) : Bool) =
                    (classMatch x.1 x.2.1 d && fnmatchFuel g x.2.2 n2) from rfl,
                    Bool.and_eq_true] at h
                  obtain ⟨neg, items, rest⟩ := x
                  exact GlobSem.cls p neg items rest d n2 hpc h.1 (ih _ _ h.2)
              | none =>
                rw [hpc] at h
                cases name with
                | nil => cases h
                | cons d n2 =>
                  rw [show ((match (none : Option (Bool × List ClassItem × List Char)),
                    d :: n2 with
                    | some x, d :: n2 => classMatch x.1 x.2.1 d && fnmatchFuel g x.2.2 n2
                    | none, d :: n2 => d = '[' && fnmatchFuel g p n2
                    | _, [] => false) : Bool) =
                    (d = '[' && fnmatchFuel g p n2) from rfl, Bool.and_eq_true] at h
                  have hd : d = '[' := of_decide_eq_true h.1
                  subst hd
                  exact GlobSem.clsLit p n2 hpc (ih _ _ h.2)
            · rw [fnmatchFuel_lit g c p name h1 h2 h3 h4] at h
              cases name with
              | nil => cases h
              | cons d n2 =>
                rw [show ((match d :: n2 with
                  | [] => false
                  | d :: n2 => d = c && fnmatchFuel g p n2) : Bool) =
                  (d = c && fnmatchFuel g p n2) from rfl, Bool.and_eq_true] at h
                have hd : d = c := of_decide_eq_true h.1
                subst hd
                exact GlobSem.lit d p n2 h1 h2 h3 h4 (ih _ _ h.2)

theorem fnmatchChars_of_fuel {pat name : List Char} {f : Nat}
    (h : fnmatchFuel f pat name = true) (hf : f ≤ pat.length + name.length + 1) :
    fnmatchChars pat name = true :=
  fnmatchFuel_mono f _ pat name hf h

theorem sem_fnmatchChars : ∀ (pat name : List Char), GlobSem pat name →
    fnmatchChars pat name = true := by
  intro pat name hsem
  induction hsem with
  | nil => rfl
  | lit c p n h1 h2 h3 h4 hs ihs =>
    refine fnmatchChars_of_fuel (f := p.length + n.length + 2) ?_ (by simp; omega)
    rw [fnmatchFuel_lit _ c p _ h1 h2 h3 h4]
    rw [show ((match c :: n with
      | [] => false
      | d :: n2 => d = c && fnmatchFuel (p.length + n.length + 1) p n2) : Bool) =
      (c = c && fnmatchFuel (p.length + n.length + 1) p n) from rfl, Bool.and_eq_true]
    exact ⟨decide_eq_true rfl, ihs⟩
  | one c p n hs ihs =>
    refine fnmatchChars_of_fuel (f := p.length + n.length + 2) ?_ (by simp; omega)
    rw [fnmatchFuel_q]
    exact ihs
  | starSkip p n hs ihs =>
    refine fnmatchChars_of_fuel (f := p.length + n.length + 2) ?_ (by simp; omega)
    rw [fnmatchFuel_star, Bool.or_eq_true]
    exact Or.inl ihs
  | starTake c p n hs ihs =>
    refine fnmatchChars_of_fuel (f := p.length + 1 + n.length + 2) ?_ (by simp; omega)
    rw [fnmatchFuel_star, Bool.or_eq_true]
    refine Or.inr ?_
    exact ihs
  | esc c p n hs ihs =>
    refine fnmatchChars_of_fuel (f := p.length + n.length + 2) ?_ (by simp; omega)
    rw [fnmatchFuel_esc]
    rw [show ((match c :: p, c :: n with
      | e :: p2, d :: n2 => d = e && fnmatchFuel (p.length + n.length + 1) p2 n2
      | _, _ => false) : Bool) =
      (c = c && fnmatchFuel (p.length + n.length + 1) p n) from rfl, Bool.and_eq_true]
    exact ⟨decide_eq_true rfl, ihs⟩
  | cls p neg items rest c n hpc hcm hs ihs =>
    have hrl : rest.length ≤ p.length := parseClass_len hpc
    refine fnmatchChars_of_fuel (f := rest.length + n.length + 2) ?_ (by simp; omega)
    rw [fnmatchFuel_cls, hpc]
    rw [show ((match (some (neg, items, rest) :
      Option (Bool × List ClassItem × List Char)), c :: n with
      | some x, d :: n2 =>
        classMatch x.1 x.2.1 d && fnmatchFuel (rest.length + n.length + 1) x.2.2 n2
      | none, d :: n2 => d = '[' && fnmatchFuel (rest.length + n.length + 1) p n2
      | _, [] => false) : Bool) =
      (classMatch neg items c && fnmatchFuel (rest.length + n.length + 1) rest n)
      from rfl, Bool.and_eq_true]
    exact ⟨hcm, ihs⟩
  | clsLit p n hpc hs ihs =>
    refine fnmatchChars_of_fuel (f := p.length + n.length + 2) ?_ (by simp; omega)
    rw [fnmatchFuel_cls, hpc]
    rw [show ((match (none : Option (Bool × List ClassItem × List Char)), '[' :: n with
      | some x, d :: n2 =>
        classMatch x.1 x.2.1 d && fnmatchFuel (p.length + n.length + 1) x.2.2 n2
      | none, d :: n2 => d = '[' && fnmatchFuel (p.length + n.length + 1) p n2
      | _, [] => false) : Bool) =
      ('[' = '[' && fnmatchFuel (p.length + n.length + 1) p n) from rfl,
      Bool.and_eq_true]
    exact ⟨decide_eq_true rfl, ihs⟩

theorem fnmatchChars_iff_sem (pat name : List Char) :
    fnmatchChars pat name = true ↔ GlobSem pat name :=
  ⟨fnmatchFuel_sem _ _ _, sem_fnmatchChars _ _⟩

theorem rwOnly_no_removed {L : List Ev} (h : rwOnly L) {i : Nat} {p : Path} :
    L[i]? ≠ some (Ev.removedE p) := by
  intro hc
  have hmem : Ev.removedE p ∈ L := List.getElem?_mem hc
  rcases h _ hmem with ⟨q, k, he⟩ | ⟨q, k, he⟩ <;> cases he

theorem precede_helper (L R : List Ev) (v : Ev) (hL : rwOnly L)
    (hvnr : ∀ p, v ≠ Ev.removedE p) :
    ∀ (i : Nat) (p : Path), (L ++ v :: R)[i]? = some (Ev.removedE p) →
      ∃ j : Nat, j < i ∧ (L ++ v :: R)[j]? = some v := by
  intro i p hi
  have hiL : ¬ i < L.length := by
    intro hlt
    rw [List.getElem?_append_left hlt] at hi
    exact rwOnly_no_removed hL hi
  have hjv : (L ++ v :: R)[L.length]? = some v := by
    rw [List.getElem?_append_right (le_refl L.length)]
    simp
  have hne : i ≠ L.length := by
    intro hEq
    rw [hEq, hjv] at hi
    injection hi with hi
    exact hvnr p hi
  exact ⟨L.length, by omega, hjv⟩

theorem rwOnly_last_no_removed {L : List Ev} {e : Ev} (hL : rwOnly L)
    (he : ∀ p, e ≠ Ev.removedE p) :
    ∀ (i : Nat) (p : Path), (L ++ [e])[i]? ≠ some (Ev.removedE p) := by
  intro i p hi
  have hmem : Ev.removedE p ∈ L ++ [e] := List.getElem?_mem hi
  rcases List.mem_append.1 hmem with hm | hm
  · rcases hL _ hm with ⟨q, k, h2⟩ | ⟨q, k, h2⟩ <;> cases h2
  · rw [List.mem_singleton] at hm
    exact he p hm.symm

theorem mkdirOp_ok {sys : Sys} {p : Path} {sys1 : Sys}
    (h : mkdirOp sys p = Except.ok sys1) :
    sys1 = { sys with fs := fsSet sys.fs p Node.dir } := by
  unfold mkdirOp at h
  split at h
  · cases h
  · split at h
    · injection h with h
      exact h.symm
    · cases h

theorem createDirGo_state : ∀ (l : List Path) (sys : Sys) (r : Int) (sys' : Sys),
    createDirGo sys l = (r, sys') →
    sys'.crossDev = sys.crossDev ∧ sys'.renameOther = sys.renameOther ∧
    sys'.unlinkFaults = sys.unlinkFaults ∧ sys'.log = sys.log ∧
    sys'.readFaults = sys.readFaults ∧ sys'.writeFaults = sys.writeFaults := by
  intro l
  induction l with
  | nil =>
    intro sys r sys' h
    obtain ⟨-, h2⟩ := Prod.mk.injEq .. ▸ h
    rw [← h2]
    exact ⟨rfl, rfl, rfl, rfl, rfl, rfl⟩
  | cons q rest ih =>
    intro sys r sys' h
    unfold createDirGo at h
    split at h
    · exact ih sys r sys' h
    · rcases hmk : mkdirOp sys q with b | sys1
      · rw [hmk] at h
        cases b
        · obtain ⟨-, h2⟩ := Prod.mk.injEq .. ▸ h
          rw [← h2]
          exact ⟨rfl, rfl, rfl, rfl, rfl, rfl⟩
        · exact ih sys r sys' h
      · rw [hmk] at h
        have hs1 := mkdirOp_ok hmk
        obtain ⟨g1, g2, g3, g4, g5, g6⟩ := ih sys1 r sys' h
        rw [hs1] at g1 g2 g3 g4 g5 g6
        exact ⟨g1, g2, g3, g4, g5, g6⟩

theorem create_directory_state {sys : Sys} {p : Path} {r : Int} {sys' : Sys}
    (h : create_directory sys p = (r, sys')) :
    sys'.crossDev = sys.crossDev ∧ sys'.renameOther = sys.renameOther ∧
    sys'.unlinkFaults = sys.unlinkFaults ∧ sys'.log = sys.log ∧
    sys'.readFaults = sys.readFaults ∧ sys'.writeFaults = sys.writeFaults :=
  createDirGo_state _ _ _ _ h

theorem copyPair_log : ∀ fuel : Nat,
    (∀ sys src dest r sys', copy_directory fuel sys src dest = (r, sys') →
      sys'.crossDev = sys.crossDev ∧ sys'.renameOther = sys.renameOther ∧
      sys'.unlinkFaults = sys.unlinkFaults ∧
      ∃ evs, sys'.log = sys.log ++ evs ∧ rwOnly evs) ∧
    (∀ names sys src dest r sys', copyEntries fuel sys src dest names = (r, sys') →
      sys'.crossDev = sys.crossDev ∧ sys'.renameOther = sys.renameOther ∧
      sys'.unlinkFaults = sys.unlinkFaults ∧
      ∃ evs, sys'.log = sys.log ++ evs ∧ rwOnly evs) := by
  intro fuel
  induction fuel with
  | zero =>
    constructor
    · intro sys src dest r sys' h
      rw [show copy_directory 0 sys src dest = (ERROR_DIR_OPEN, sys) from rfl] at h
      obtain ⟨-, h2⟩ := Prod.mk.injEq .. ▸ h
      rw [← h2]
      exact ⟨rfl, rfl, rfl, [], by simp, rwOnly_nil⟩
    · intro names
      induction names with
      | nil =>
        intro sys src dest r sys' h
        rw [show copyEntries 0 sys src dest [] = (SUCCESS, sys) from rfl] at h
        obtain ⟨-, h2⟩ := Prod.mk.injEq .. ▸ h
        rw [← h2]
        exact ⟨rfl, rfl, rfl, [], by simp, rwOnly_nil⟩
      | cons nm rest ihn =>
        intro sys src dest r sys' h
        simp only [copyEntries, copyEntriesF] at h
        split at h
        · rw [show copy_directory 0 sys (src ++ [nm]) (dest ++ [nm]) =
            (ERROR_DIR_OPEN, sys) from rfl] at h
          simp only at h
          rw [if_pos (show ERROR_DIR_OPEN ≠ SUCCESS by decide)] at h
          obtain ⟨-, h2⟩ := Prod.mk.injEq .. ▸ h
          rw [← h2]
          exact ⟨rfl, rfl, rfl, [], by simp, rwOnly_nil⟩
        · rcases hcf : copy_file sys (src ++ [nm]) (dest ++ [nm]) with ⟨rc, sysC⟩
          rw [hcf] at h
          obtain ⟨e1, e2, e3, evs1, hlog1, hrw1⟩ := copy_file_state hcf
          split at h
          · obtain ⟨-, h2⟩ := Prod.mk.injEq .. ▸ h
            rw [← h2]
            exact ⟨e1, e2, e3, evs1, hlog1, hrw1⟩
          · obtain ⟨g1, g2, g3, evs2, hlog2, hrw2⟩ := ihn sysC src dest r sys' h
            exact ⟨g1.trans e1, g2.trans e2, g3.trans e3, evs1 ++ evs2,
              by rw [hlog2, hlog1, List.append_assoc], rwOnly_append hrw1 hrw2⟩
  | succ k ihk =>
    have hdir : ∀ sys src dest r sys', copy_directory (k + 1) sys src dest = (r, sys') →
        sys'.crossDev = sys.crossDev ∧ sys'.renameOther = sys.renameOther ∧
        sys'.unlinkFaults = sys.unlinkFaults ∧
        ∃ evs, sys'.log = sys.log ++ evs ∧ rwOnly evs := by
      intro sys src dest r sys' h
      rw [copy_directory] at h
      rcases hcd : create_directory sys dest with ⟨rc, sysD⟩
      rw [hcd] at h
      obtain ⟨d1, d2, d3, d4, -, -⟩ := create_directory_state hcd
      split at h
      · obtain ⟨-, h2⟩ := Prod.mk.injEq .. ▸ h
        rw [← h2]
        exact ⟨d1, d2, d3, [], by simp [d4], rwOnly_nil⟩
      · split at h
        · obtain ⟨-, h2⟩ := Prod.mk.injEq .. ▸ h
          rw [← h2]
          exact ⟨d1, d2, d3, [], by simp [d4], rwOnly_nil⟩
        · obtain ⟨g1, g2, g3, evs2, hlog2, hrw2⟩ := ihk.2 _ sysD src dest r sys' h
          exact ⟨g1.trans d1, g2.trans d2, g3.trans d3, evs2,
            by rw [hlog2, d4], hrw2⟩
    constructor
    · exact hdir
    · intro names
      induction names with
      | nil =>
        intro sys src dest r sys' h
        rw [show copyEntries (k + 1) sys src dest [] = (SUCCESS, sys) from rfl] at h
        obtain ⟨-, h2⟩ := Prod.mk.injEq .. ▸ h
        rw [← h2]
        exact ⟨rfl, rfl, rfl, [], by simp, rwOnly_nil⟩
      | cons nm rest ihn =>
        intro sys src dest r sys' h
        simp only [copyEntries, copyEntriesF] at h
        split at h
        · rcases hcd2 : copy_directory (k + 1) sys (src ++ [nm]) (dest ++ [nm])
            with ⟨rc, sysC⟩
          rw [hcd2] at h
          obtain ⟨e1, e2, e3, evs1, hlog1, hrw1⟩ := hdir _ _ _ _ _ hcd2
          split at h
          · obtain ⟨-, h2⟩ := Prod.mk.injEq .. ▸ h
            rw [← h2]
            exact ⟨e1, e2, e3, evs1, hlog1, hrw1⟩
          · obtain ⟨g1, g2, g3, evs2, hlog2, hrw2⟩ := ihn sysC src dest r sys' h
            exact ⟨g1.trans e1, g2.trans e2, g3.trans e3, evs1 ++ evs2,
              by rw [hlog2, hlog1, List.append_assoc], rwOnly_append hrw1 hrw2⟩
        · rcases hcf : copy_file sys (src ++ [nm]) (dest ++ [nm]) with ⟨rc, sysC⟩
          rw [hcf] at h
          obtain ⟨e1, e2, e3, evs1, hlog1, hrw1⟩ := copy_file_state hcf
          split at h
          · obtain ⟨-, h2⟩ := Prod.mk.injEq .. ▸ h
            rw [← h2]
            exact ⟨e1, e2, e3, evs1, hlog1, hrw1⟩
          · obtain ⟨g1, g2, g3, evs2, hlog2, hrw2⟩ := ihn sysC src dest r sys' h
            exact ⟨g1.trans e1, g2.trans e2, g3.trans e3, evs1 ++ evs2,
              by rw [hlog2, hlog1, List.append_assoc], rwOnly_append hrw1 hrw2⟩

theorem copy_directory_log {fuel : Nat} {sys : Sys} {src dest : Path} {r : Int}
    {sys' : Sys} (h : copy_directory fuel sys src dest = (r, sys')) :
    sys'.crossDev = sys.crossDev ∧ sys'.renameOther = sys.renameOther ∧
    sys'.unlinkFaults = sys.unlinkFaults ∧
    ∃ evs, sys'.log = sys.log ++ evs ∧ rwOnly evs :=
  (copyPair_log fuel).1 _ _ _ _ _ h

theorem scanMatch_any (filename : String) :
    ∀ l : List String, scanMatch filename l = l.any fun p => match_pattern filename p := by
  intro l
  induction l with
  | nil => rfl
  | cons p rest ih =>
    unfold scanMatch
    by_cases hm : match_pattern filename p <;> simp [hm, ih]

theorem unlinkOp_log (sys : Sys) (p : Path) :
    ((unlinkOp sys p).2.log = sys.log ∧ (unlinkOp sys p).2.fs = sys.fs) ∨
    ((unlinkOp sys p).2.log = sys.log ++ [Ev.removedE p] ∧
      (unlinkOp sys p).2.fs = fsRemove sys.fs p) := by
  unfold unlinkOp
  by_cases hf : sys.unlinkFaults.head?.getD false = true
  · rw [if_pos hf]
    exact Or.inl ⟨rfl, rfl⟩
  · rw [Bool.not_eq_true] at hf
    simp only [hf, Bool.false_eq_true, if_false]
    cases hG : fsGet sys.fs p with
    | none => exact Or.inl ⟨rfl, rfl⟩
    | some n =>
      cases n with
      | dir => exact Or.inl ⟨rfl, rfl⟩
      | file c pm => exact Or.inr ⟨rfl, rfl⟩

theorem unlinkOp_file {sys : Sys} {p : Path} {c : List Nat} {pm : Nat}
    (hul : sys.unlinkFaults = []) (hp : fsGet sys.fs p = some (Node.file c pm)) :
    unlinkOp sys p =
      (Except.ok (),
        { sys with
            unlinkFaults := []
            fs := fsRemove sys.fs p
            log := sys.log ++ [Ev.removedE p] }) := by
  unfold unlinkOp
  rw [hul]
  simp only [List.head?_nil, Option.getD_none, Bool.false_eq_true, if_false]
  rw [hp]
  rfl

theorem rwOnly_last_removed_other {L : List Ev} (hL : rwOnly L) {d s : Path}
    (hne : s ≠ d) :
    ∀ i : Nat, (L ++ [Ev.removedE d])[i]? ≠ some (Ev.removedE s) := by
  intro i hi
  have hmem : Ev.removedE s ∈ L ++ [Ev.removedE d] := List.getElem?_mem hi
  rcases List.mem_append.1 hmem with hm | hm
  · rcases hL _ hm with ⟨q, k, h2⟩ | ⟨q, k, h2⟩ <;> cases h2
  · rw [List.mem_singleton] at hm
    injection hm with hm
    exact hne hm

/-- C5: `should_copy_file` evaluates as: if any exclude pattern matches the
name, reject; otherwise, if the include list is empty, admit; otherwise admit
exactly when some include pattern matches.  In particular
`should_copy_file name [] []` is `true` for every name,
`should_copy_file name [] [p]` is `false` exactly when `p` matches `name`,
and an exclude match dominates any include match. -/
theorem claim_C5_filter_policy (filename : String) (inc exc : List String) :
    (should_copy_file filename inc exc =
      if exc.any fun p => match_pattern filename p then false
      else if inc.isEmpty then true
      else inc.any fun p => match_pattern filename p) ∧
    should_copy_file filename [] [] = true ∧
    (∀ p, should_copy_file filename [] [p] = false ↔ match_pattern filename p = true) ∧
    (∀ e ∈ exc, match_pattern filename e = true → should_copy_file filename inc exc = false) := by
  refine ⟨?_, rfl, ?_, ?_⟩
  · unfold should_copy_file
    rw [scanMatch_any, scanMatch_any]
  · intro p
    unfold should_copy_file
    by_cases hm : match_pattern filename p = true <;> simp [scanMatch, hm]
  · intro e he hm
    have hscan : scanMatch filename exc = true := by
      rw [scanMatch_any]
      exact List.any_eq_true.2 ⟨e, he, hm⟩
    unfold should_copy_file
    rw [hscan]
    rfl

/-- Closed instance of C5: with no patterns everything is admitted; with only
an exclude pattern, admission is the negation of the match; a name matching
both an include and an exclude pattern is rejected. -/
theorem claim_C5_filter_policy_witness :
    should_copy_file "report.txt" [] [] = true ∧
    (should_copy_file "report.txt" [] ["*.log"] = false ↔
      match_pattern "report.txt" "*.log" = true) ∧
    should_copy_file "tmp_report.txt" ["*.txt"] ["tmp*"] = false :=
  ⟨(claim_C5_filter_policy "report.txt" [] []).2.1,
   (claim_C5_filter_policy "report.txt" [] ["*.log"]).2.2.1 "*.log",
   (claim_C5_filter_policy "tmp_report.txt" ["*.txt"] ["tmp*"]).2.2.2 "tmp*"
     (by decide) (by decide)⟩

/-- C6 counterexample: `match_pattern` does support character classes — the
pattern `[ab]` matches the one-character name `a` — while the glob dialect
the spec describes (`*` and `?` only, no character classes) rejects it, so
`match_pattern` does not implement the spec's no-classes semantics. -/
theorem claim_C6_counterexample :
    match_pattern "a" "[ab]" = true ∧
    specGlobChars "[ab]".toList "a".toList = false := by
  exact ⟨by decide, by decide⟩

/-- C6 (amended): `match_pattern name pat` implements `fnmatch(pat, name, 0)`
glob semantics: anchored and case-sensitive, `*` matches any run (including
the empty run), `?` exactly one character, a backslash escapes the following
character, and bracket character classes (with `!`/`^` negation and ranges)
match one character; an unclosed `[` is a literal.  `GlobSem` is the
declarative form of exactly these rules. -/
theorem claim_C6_glob_semantics (filename pat : String) :
    match_pattern filename pat = true ↔ GlobSem pat.toList filename.toList := by
  unfold match_pattern
  exact fnmatchChars_iff_sem pat.toList filename.toList

/-- C7: `compare_files` compares sizes first and reports Different without
reading any content (the returned state is exactly the input state, log
included) when the sizes differ; with equal sizes and no injected read
faults it streams both files in lock-step chunks, reports Identical exactly
when the contents are equal, and otherwise reports Different. -/
theorem claim_C7_compare (sys : Sys) (f1 f2 : Path) :
    (path_exists sys.fs f1 = true → path_exists sys.fs f2 = true →
      get_file_size sys.fs f1 ≠ get_file_size sys.fs f2 →
      compare_files sys f1 f2 = (ERROR_FILES_DIFFER, sys)) ∧
    (∀ c1 p1 c2 p2, sys.readFaults = [] →
      fsGet sys.fs f1 = some (Node.file c1 p1) →
      fsGet sys.fs f2 = some (Node.file c2 p2) →
      c1.length = c2.length →
      (((compare_files sys f1 f2).1 = SUCCESS) ↔ c1 = c2) ∧
      ((compare_files sys f1 f2).1 = SUCCESS ∨
        (compare_files sys f1 f2).1 = ERROR_FILES_DIFFER)) :=
  ⟨fun h1 h2 hsz => compare_files_szdiff h1 h2 hsz,
   fun _ _ _ _ hrf hg1 hg2 hlen => compare_files_eqsz hrf hg1 hg2 hlen⟩

/-- Closed instance of C7: files of sizes 1 and 2 are Different with the
state untouched (no read events); equal-size files `[1]` and `[9]` compare
as Identical exactly when `[1] = [9]`, i.e. not. -/
theorem claim_C7_compare_witness :
    compare_files (cleanSys fsCmp) ["x"] ["y"] = (ERROR_FILES_DIFFER, cleanSys fsCmp) ∧
    ((compare_files (cleanSys fsCmp) ["x"] ["z"]).1 = SUCCESS ↔ ([1] : List Nat) = [9]) :=
  ⟨(claim_C7_compare (cleanSys fsCmp) ["x"] ["y"]).1 (by decide) (by decide) (by decide),
   ((claim_C7_compare (cleanSys fsCmp) ["x"] ["z"]).2 [1] 0o644 [9] 0o644 rfl
     (by decide) (by decide) (by decide)).1⟩

/-- C4 (at the failing input): after a cross-device move whose fallback copy
succeeded, a failure to delete the source is reported for a FILE move — the
source `unlink` fails and `move_file` returns `ERROR_MOVE_FAILED` with the
data at both locations — but NOT for a directory move: `remove_directory`
ignores the failed `unlink` of `s/f`, so `move_directory` returns `SUCCESS`
even though the source tree is still fully present alongside the copy. -/
theorem claim_C4_delete_failure_ignored :
    (move_file sysCrossOneFail ["a"] ["b"]).1 = ERROR_MOVE_FAILED ∧
    fsGet (move_file sysCrossOneFail ["a"] ["b"]).2.fs ["a"] =
      some (Node.file [1, 2] 0o600) ∧
    fsGet (move_file sysCrossOneFail ["a"] ["b"]).2.fs ["b"] =
      some (Node.file [1, 2] 0o600) ∧
    (move_directory 3 sysMoveDirFail ["s"] ["d"]).1 = SUCCESS ∧
    fsGet (move_directory 3 sysMoveDirFail ["s"] ["d"]).2.fs ["s"] = some Node.dir ∧
    fsGet (move_directory 3 sysMoveDirFail ["s"] ["d"]).2.fs ["s", "f"] =
      some (Node.file [1] 0o644) ∧
    fsGet (move_directory 3 sysMoveDirFail ["s"] ["d"]).2.fs ["d", "f"] =
      some (Node.file [1] 0o644) := by
  decide

/-- C8: a rename failure other than the cross-device error is a fatal move
failure with no fallback: `move_file` and `move_directory` both return
`ERROR_MOVE_FAILED` with the whole state — filesystem, fault streams and
log — exactly as it was, so the copy-verify-delete path is never entered. -/
theorem claim_C8_no_fallback (sys : Sys) (src dest : Path)
    (h : (renameOp sys src dest).1 = Except.error RErr.other) :
    move_file sys src dest = (ERROR_MOVE_FAILED, sys) ∧
    ∀ fuel, move_directory fuel sys src dest = (ERROR_MOVE_FAILED, sys) := by
  rcases hre : renameOp sys src dest with ⟨re, sys2⟩
  rw [hre] at h
  simp only at h
  subst h
  have hs2 : sys2 = sys := renameOp_fail hre
  subst hs2
  constructor
  · unfold move_file
    rw [hre]
    rfl
  · intro fuel
    unfold move_directory
    rw [hre]
    rfl

/-- Closed instance of C8: with `rename` failing for a reason other than
`EXDEV`, both the file move and the directory move fail and return the
input state untouched. -/
theorem claim_C8_no_fallback_witness :
    move_file sysRenameFail ["a"] ["b"] = (ERROR_MOVE_FAILED, sysRenameFail) ∧
    move_directory 2 sysRenameFail ["a"] ["b"] = (ERROR_MOVE_FAILED, sysRenameFail) :=
  ⟨(claim_C8_no_fallback sysRenameFail ["a"] ["b"] rfl).1,
   (claim_C8_no_fallback sysRenameFail ["a"] ["b"] rfl).2 2⟩

/-- C9: copying a file onto itself: the destination open truncates the file
before the first read, so the copy loop immediately sees end-of-file and
transfers nothing, and the call returns SUCCESS — the original content is
lost with no error reported, and the log records exactly one zero-byte
read. -/
theorem claim_C9_self_copy_truncates (sys : Sys) (p : Path) (c : List Nat) (pm : Nat)
    (hsrc : fsGet sys.fs p = some (Node.file c pm)) (hrf : sys.readFaults = []) :
    ∃ sys', copy_file sys p p = (SUCCESS, sys') ∧
      fsGet sys'.fs p = some (Node.file [] pm) ∧
      (∀ q, q ≠ p → fsGet sys'.fs q = fsGet sys.fs q) ∧
      sys'.log = sys.log ++ [Ev.readE p 0] := by
  have hnotdir : is_directory sys.fs p = false := by
    unfold is_directory
    rw [hsrc]
    rfl
  have hfdEq : finalDest sys.fs p p = p := by
    unfold finalDest
    rw [hnotdir]
    rfl
  have hot : openTrunc sys p =
      Except.ok { sys with fs := fsSet sys.fs p (Node.file [] pm) } := by
    unfold openTrunc
    rw [hsrc]
  set sysT : Sys := { sys with fs := fsSet sys.fs p (Node.file [] pm) } with hsysT
  have hpT : fsGet sysT.fs p = some (Node.file [] pm) := by
    show fsGet (fsSet sys.fs p (Node.file [] pm)) p = _
    rw [fsGet_set, if_pos rfl]
  have hrfT : sysT.readFaults = [] := hrf
  have hflT : fileLen sysT.fs p = some 0 := by
    unfold fileLen
    rw [hpT]
    rfl
  have hloop : copyLoop (0 + 2) sysT p p 0 =
      (SUCCESS, { sysT with
        readFaults := ([] : List Bool)
        log := sysT.log ++ [Ev.readE p 0] }) := by
    show copyLoop 2 sysT p p 0 = _
    unfold copyLoop
    rw [readOp_noFault hrfT hpT 0]
    rfl
  have hpR : fsGet ({ sysT with
      readFaults := ([] : List Bool)
      log := sysT.log ++ [Ev.readE p 0] } : Sys).fs p = some (Node.file [] pm) := hpT
  have hcf : copy_file sys p p =
      (SUCCESS, { sysT with
        readFaults := ([] : List Bool)
        log := sysT.log ++ [Ev.readE p 0]
        fs := fsSet sysT.fs p (Node.file [] pm) }) := by
    unfold copy_file
    rw [if_neg (not_not_intro (show openReadOk sys.fs p = true by
      show (fsGet sys.fs p).isSome = true
      rw [hsrc]
      rfl))]
    simp only
    rw [hfdEq, hot]
    simp only
    rw [show fileLen sysT.fs p = some 0 from hflT]
    simp only [Option.getD_some]
    rw [hloop]
    simp only
    rw [if_neg (by simp)]
    rw [hpR]
  refine ⟨_, hcf, ?_, ?_, ?_⟩
  · show fsGet (fsSet sysT.fs p (Node.file [] pm)) p = _
    rw [fsGet_set, if_pos rfl]
  · intro q hq
    show fsGet (fsSet sysT.fs p (Node.file [] pm)) q = _
    rw [fsGet_set, if_neg hq]
    show fsGet (fsSet sys.fs p (Node.file [] pm)) q = _
    rw [fsGet_set, if_neg hq]
  · show sysT.log ++ [Ev.readE p 0] = sys.log ++ [Ev.readE p 0]
    rfl

/-- Closed instance of C9: self-copying the two-byte file `a` succeeds and
leaves it empty, with only one zero-byte read logged. -/
theorem claim_C9_self_copy_truncates_witness :
    ∃ sys', copy_file (cleanSys fsOneFile) ["a"] ["a"] = (SUCCESS, sys') ∧
      fsGet sys'.fs ["a"] = some (Node.file [] 0o600) ∧
      (∀ q, q ≠ ["a"] → fsGet sys'.fs q = fsGet (cleanSys fsOneFile).fs q) ∧
      sys'.log = (cleanSys fsOneFile).log ++ [Ev.readE ["a"] 0] :=
  claim_C9_self_copy_truncates (cleanSys fsOneFile) ["a"] [1, 2] 0o600 (by decide) rfl

/-- C1: whenever `copy_file` returns SUCCESS, the source and the written
destination file (`dest` itself, or `dest/basename(src)` when `dest` is an
existing directory) hold identical content and identical permission bits,
and a subsequent `compare_files` of the two paths over the resulting
filesystem reports Identical. -/
theorem claim_C1_copy_fidelity (sys : Sys) (src dest : Path) (sys' : Sys)
    (h : copy_file sys src dest = (SUCCESS, sys')) :
    ∃ c pm, fsGet sys'.fs src = some (Node.file c pm) ∧
      fsGet sys'.fs (finalDest sys.fs src dest) = some (Node.file c pm) ∧
      (compare_files (cleanSys sys'.fs) src (finalDest sys.fs src dest)).1 = SUCCESS := by
  obtain ⟨c, pm, h1, h2, -, -⟩ := copy_file_ok h
  refine ⟨c, pm, h1, h2, ?_⟩
  have hg1 : fsGet (cleanSys sys'.fs).fs src = some (Node.file c pm) := h1
  have hg2 : fsGet (cleanSys sys'.fs).fs (finalDest sys.fs src dest) =
      some (Node.file c pm) := h2
  exact (compare_files_eqsz rfl hg1 hg2 rfl).1.2 rfl

/-- Closed instance of C1: after copying `a` over the fresh path `b`, both
paths hold the same content with the same permission bits and compare as
Identical. -/
theorem claim_C1_copy_fidelity_witness :
    ∃ c pm,
      fsGet (copy_file (cleanSys fsOneFile) ["a"] ["b"]).2.fs ["a"] =
        some (Node.file c pm) ∧
      fsGet (copy_file (cleanSys fsOneFile) ["a"] ["b"]).2.fs
        (finalDest (cleanSys fsOneFile).fs ["a"] ["b"]) = some (Node.file c pm) ∧
      (compare_files (cleanSys (copy_file (cleanSys fsOneFile) ["a"] ["b"]).2.fs) ["a"]
        (finalDest (cleanSys fsOneFile).fs ["a"] ["b"])).1 = SUCCESS :=
  claim_C1_copy_fidelity (cleanSys fsOneFile) ["a"] ["b"]
    (copy_file (cleanSys fsOneFile) ["a"] ["b"]).2 (by decide)

/-- C10: creating an already-existing directory is a no-op SUCCESS (on a
well-formed filesystem whose entries' parents are directories), and
consequently `copy_directory` into an existing destination directory
succeeds and merges into it: shown for a source directory whose entries are
files with names fresh in the destination — everything outside the written
`dest/name` paths is untouched and each source child arrives at `dest/name`
with identical content and permission bits. -/
theorem claim_C10_mkdir_idempotent_merge (sys : Sys) (p src dest : Path) :
    (parentClosedB sys.fs = true → fsGet sys.fs p = some Node.dir →
      create_directory sys p = (SUCCESS, sys)) ∧
    (parentClosedB sys.fs = true → keysNodup sys.fs →
      sys.readFaults = [] → sys.writeFaults = [] →
      fsGet sys.fs src = some Node.dir → fsGet sys.fs dest = some Node.dir →
      src ≠ dest →
      (∀ nm ∈ childNames sys.fs src, ∃ c pm,
        fsGet sys.fs (src ++ [nm]) = some (Node.file c pm)) →
      (∀ nm ∈ childNames sys.fs src, fsGet sys.fs (dest ++ [nm]) = none) →
      ∀ fuel : Nat, ∃ sys', copy_directory (fuel + 1) sys src dest = (SUCCESS, sys') ∧
        (∀ q, (∀ nm ∈ childNames sys.fs src, q ≠ dest ++ [nm]) →
          fsGet sys'.fs q = fsGet sys.fs q) ∧
        (∀ nm ∈ childNames sys.fs src, ∀ c pm,
          fsGet sys.fs (src ++ [nm]) = some (Node.file c pm) →
          fsGet sys'.fs (dest ++ [nm]) = some (Node.file c pm))) :=
  ⟨fun hpc hdir => create_directory_noop hpc hdir,
   fun hpc hnd hrf hwf hs hd hne hk hdj fuel =>
     copy_directory_merge hpc hnd hrf hwf hs hd hne hk hdj fuel⟩

/-- Closed instance of C10: on `fsMerge` (directories `s` and `d`, each
already populated), re-creating `d` is a no-op SUCCESS, and copying `s`
into the existing `d` succeeds and merges `s/x` in next to `d/y`. -/
theorem claim_C10_mkdir_idempotent_merge_witness :
    create_directory (cleanSys fsMerge) ["d"] = (SUCCESS, cleanSys fsMerge) ∧
    ∃ sys', copy_directory (0 + 1) (cleanSys fsMerge) ["s"] ["d"] = (SUCCESS, sys') ∧
      (∀ q, (∀ nm ∈ childNames (cleanSys fsMerge).fs ["s"], q ≠ ["d"] ++ [nm]) →
        fsGet sys'.fs q = fsGet (cleanSys fsMerge).fs q) ∧
      (∀ nm ∈ childNames (cleanSys fsMerge).fs ["s"], ∀ c pm,
        fsGet (cleanSys fsMerge).fs (["s"] ++ [nm]) = some (Node.file c pm) →
        fsGet sys'.fs (["d"] ++ [nm]) = some (Node.file c pm)) :=
  ⟨(claim_C10_mkdir_idempotent_merge (cleanSys fsMerge) ["d"] ["s"] ["d"]).1
      (by decide) (by decide),
   (claim_C10_mkdir_idempotent_merge (cleanSys fsMerge) ["d"] ["s"] ["d"]).2
      (by decide) (by unfold keysNodup; decide) rfl rfl (by decide) (by decide) (by decide)
      (by
        have he : childNames (cleanSys fsMerge).fs ["s"] = ["x"] := by decide
        rw [he]
        intro nm hnm
        rw [List.mem_singleton] at hnm
        subst hnm
        exact ⟨[5], 0o600, by decide⟩)
      (by decide) 0⟩

/-- C3 (amended): in the cross-device fallback, when the verification step
fails and the written destination is the `dest` path itself (i.e. `dest` is
not an existing directory), `move_file` deletes the newly written
destination, returns `ERROR_MOVE_FAILED`, and every other path — the source
included — is exactly as it was before the move.  (When `dest` IS an
existing directory the cleanup `unlink` targets `dest` instead of the
written `dest/basename(src)` file, so the written file is not removed: see
the counterexample.) -/
theorem claim_C3_verify_fail_cleanup (sys : Sys) (src dest : Path)
    (hx : renameOp sys src dest = (Except.error RErr.exdev, sys))
    (hnd : is_directory sys.fs dest = false)
    (hcopy : (copy_file sys src dest).1 = SUCCESS)
    (hver : (compare_files (copy_file sys src dest).2 src dest).1 ≠ SUCCESS)
    (hul : sys.unlinkFaults = []) :
    (move_file sys src dest).1 = ERROR_MOVE_FAILED ∧
    fsGet (move_file sys src dest).2.fs dest = none ∧
    (∀ q, q ≠ dest → fsGet (move_file sys src dest).2.fs q = fsGet sys.fs q) := by
  rcases hmv : move_file sys src dest with ⟨r0, sysF⟩
  unfold move_file at hmv
  rw [hx] at hmv
  simp only at hmv
  rw [if_pos trivial] at hmv
  rcases hcf : copy_file sys src dest with ⟨rc, sysC⟩
  rw [hcf] at hmv hcopy hver
  simp only at hmv hcopy hver
  subst hcopy
  rw [if_neg (by simp)] at hmv
  rcases hcmp : compare_files sysC src dest with ⟨r2, sysM⟩
  rw [hcmp] at hmv hver
  simp only at hmv hver
  rw [if_pos hver] at hmv
  obtain ⟨c, pm, hsrcC, hdestC, hunchC, -⟩ := copy_file_ok hcf
  have hfdEq : finalDest sys.fs src dest = dest := by
    unfold finalDest
    rw [hnd]
    rfl
  rw [hfdEq] at hdestC hunchC
  obtain ⟨-, -, hulC, -⟩ := copy_file_state hcf
  obtain ⟨hfsM, -, -, hulM, -, -⟩ := compare_files_state hcmp
  have hdestM : fsGet sysM.fs dest = some (Node.file c pm) := by
    rw [hfsM]
    exact hdestC
  have hulM2 : sysM.unlinkFaults = [] := by rw [hulM, hulC, hul]
  rw [unlinkOp_file hulM2 hdestM] at hmv
  simp only at hmv
  have h1 : ERROR_MOVE_FAILED = r0 := congrArg Prod.fst hmv
  have h2 : ({ sysM with
      unlinkFaults := ([] : List Bool)
      fs := fsRemove sysM.fs dest
      log := sysM.log ++ [Ev.removedE dest] } : Sys) = sysF := congrArg Prod.snd hmv
  subst h1
  subst h2
  refine ⟨rfl, ?_, ?_⟩
  · show fsGet (fsRemove sysM.fs dest) dest = none
    rw [fsGet_remove, if_pos rfl]
  · intro q hq
    show fsGet (fsRemove sysM.fs dest) q = _
    rw [fsGet_remove, if_neg hq, hfsM]
    exact hunchC q hq

/-- Closed instance of the amended C3: renaming `a` to `b` fails with
`EXDEV`, the fallback copy succeeds, the verification read faults, and
`move_file` fails, deletes the written `b` and leaves every other path — in
particular the source `a` — untouched. -/
theorem claim_C3_verify_fail_cleanup_witness :
    (move_file sysVerifyFault ["a"] ["b"]).1 = ERROR_MOVE_FAILED ∧
    fsGet (move_file sysVerifyFault ["a"] ["b"]).2.fs ["b"] = none ∧
    (∀ q, q ≠ ["b"] → fsGet (move_file sysVerifyFault ["a"] ["b"]).2.fs q =
      fsGet sysVerifyFault.fs q) :=
  claim_C3_verify_fail_cleanup sysVerifyFault ["a"] ["b"] rfl (by decide) (by decide)
    (by decide) rfl

/-- C3 counterexample: a cross-device move of file `a` into the EXISTING
DIRECTORY `d` writes `d/a`; verification fails (the size check compares the
file `a` against the directory `d`), and the cleanup `unlink` targets the
`dest` argument — the directory `d` — rather than the written `d/a`, so it
fails silently and the newly written destination file `d/a` remains,
contradicting the claim's "with no destination file remaining". -/
theorem claim_C3_counterexample :
    is_directory sysMoveInto.fs ["d"] = true ∧
    (copy_file sysMoveInto ["a"] ["d"]).1 = SUCCESS ∧
    (compare_files (copy_file sysMoveInto ["a"] ["d"]).2 ["a"] ["d"]).1 ≠ SUCCESS ∧
    (move_file sysMoveInto ["a"] ["d"]).1 = ERROR_MOVE_FAILED ∧
    fsGet (move_file sysMoveInto ["a"] ["d"]).2.fs ["d", "a"] =
      some (Node.file [1] 0o600) ∧
    fsGet (move_file sysMoveInto ["a"] ["d"]).2.fs ["a"] =
      some (Node.file [1] 0o600) := by
  decide

/-- C2 (amended): starting from an empty log, `move_file` indeed never
records a removal of the source before a successful rename of source to
destination or a successful content verification of the two: every
`removedE src` entry of its final log is preceded by a `renamedE src dest`
or a `verifiedE src dest` entry.  For `move_directory` only a weaker
property holds: a removal can appear in its log only when the rename
succeeded or when the fallback `copy_directory` returned SUCCESS — the
source tree's deletion is preceded by a completed copy, not by any
content-equality verification. -/
theorem claim_C2_source_deletion_guard (sys : Sys) (src dest : Path)
    (hlog : sys.log = []) :
    removalPreceded src dest (move_file sys src dest).2.log ∧
    (∀ fuel p, Ev.removedE p ∈ (move_directory fuel sys src dest).2.log →
      Ev.renamedE src dest ∈ (move_directory fuel sys src dest).2.log ∨
      (copy_directory fuel sys src dest).1 = SUCCESS) := by
  constructor
  · rcases hmv : move_file sys src dest with ⟨r0, sysF⟩
    unfold move_file at hmv
    rcases hre : renameOp sys src dest with ⟨re, sys1⟩
    rw [hre] at hmv
    cases re with
    | ok u =>
      simp only at hmv
      have h2 : sys1 = sysF := congrArg Prod.snd hmv
      subst h2
      show removalPreceded src dest sys1.log
      rw [renameOp_ok_log hre, hlog, List.nil_append]
      intro i hi
      rcases i with - | i
      · rw [List.getElem?_cons_zero] at hi
        injection hi with hi
        cases hi
      · rw [List.getElem?_cons_succ, List.getElem?_nil] at hi
        cases hi
    | error e =>
      rw [renameOp_fail hre] at hmv
      simp only at hmv
      by_cases he : e = RErr.exdev
      · subst he
        rw [if_pos rfl] at hmv
        rcases hcf : copy_file sys src dest with ⟨rc, sysC⟩
        rw [hcf] at hmv
        simp only at hmv
        obtain ⟨-, -, -, evs1, hlogC, hrw1⟩ := copy_file_state hcf
        rw [hlog, List.nil_append] at hlogC
        have hsd : src ≠ dest := renameOp_exdev_ne hre
        by_cases hrc : rc = SUCCESS
        · subst hrc
          rw [if_neg (by simp)] at hmv
          rcases hcmp : compare_files sysC src dest with ⟨r2, sysM⟩
          rw [hcmp] at hmv
          simp only at hmv
          obtain ⟨-, -, -, -, -, evs2, hlogM, hrw2⟩ := compare_files_state hcmp
          rw [hlogC] at hlogM
          have hrwM : rwOnly (evs1 ++ evs2) := rwOnly_append hrw1 hrw2
          by_cases hr2 : r2 = SUCCESS
          · subst hr2
            rw [if_neg (by simp)] at hmv
            rcases hul : unlinkOp
                { sysM with log := sysM.log ++ [Ev.verifiedE src dest] } src
              with ⟨ru, sysU⟩
            rw [hul] at hmv
            have h2v : (unlinkOp
                { sysM with log := sysM.log ++ [Ev.verifiedE src dest] } src).2 = sysU :=
              congrArg Prod.snd hul
            have hsF : sysU = sysF := by
              cases ru with
              | ok u2 => exact congrArg Prod.snd hmv
              | error e2 => exact congrArg Prod.snd hmv
            subst hsF
            show removalPreceded src dest sysU.log
            rcases unlinkOp_log
                { sysM with log := sysM.log ++ [Ev.verifiedE src dest] } src
              with ⟨hA, -⟩ | ⟨hB, -⟩
            · rw [h2v] at hA
              rw [hA]
              rw [show ({ sysM with
                  log := sysM.log ++ [Ev.verifiedE src dest] } : Sys).log =
                sysM.log ++ [Ev.verifiedE src dest] from rfl, hlogM]
              intro i hi
              exact absurd hi
                (rwOnly_last_no_removed hrwM (fun p h => by cases h) i src)
            · rw [h2v] at hB
              rw [hB]
              rw [show ({ sysM with
                  log := sysM.log ++ [Ev.verifiedE src dest] } : Sys).log =
                sysM.log ++ [Ev.verifiedE src dest] from rfl, hlogM]
              rw [List.append_assoc]
              intro i hi
              obtain ⟨j, hj, hjv⟩ := precede_helper (evs1 ++ evs2) [Ev.removedE src]
                (Ev.verifiedE src dest) hrwM (fun p h => by cases h) i src hi
              exact ⟨j, hj, Or.inl hjv⟩
          · rw [if_pos hr2] at hmv
            have h2 : (unlinkOp sysM dest).2 = sysF := congrArg Prod.snd hmv
            subst h2
            show removalPreceded src dest (unlinkOp sysM dest).2.log
            rcases unlinkOp_log sysM dest with ⟨hA, -⟩ | ⟨hB, -⟩
            · rw [hA, hlogM]
              intro i hi
              exact absurd hi (rwOnly_no_removed hrwM)
            · rw [hB, hlogM]
              intro i hi
              exact absurd hi (rwOnly_last_removed_other hrwM hsd i)
        · rw [if_pos hrc] at hmv
          have h2 : sysC = sysF := congrArg Prod.snd hmv
          subst h2
          show removalPreceded src dest sysC.log
          rw [hlogC]
          intro i hi
          exact absurd hi (rwOnly_no_removed hrw1)
      · rw [if_neg he] at hmv
        have h2 : sys = sysF := congrArg Prod.snd hmv
        rw [← h2]
        show removalPreceded src dest sys.log
        rw [hlog]
        intro i hi
        rw [List.getElem?_nil] at hi
        cases hi
  · intro fuel p hp
    rcases hmd : move_directory fuel sys src dest with ⟨r0, sysF⟩
    rw [hmd] at hp
    unfold move_directory at hmd
    rcases hre : renameOp sys src dest with ⟨re, sys1⟩
    rw [hre] at hmd
    cases re with
    | ok u =>
      simp only at hmd
      have h2 : sys1 = sysF := congrArg Prod.snd hmd
      subst h2
      left
      show Ev.renamedE src dest ∈ sys1.log
      rw [renameOp_ok_log hre, hlog, List.nil_append]
      exact List.mem_singleton.2 rfl
    | error e =>
      rw [renameOp_fail hre] at hmd
      simp only at hmd
      by_cases he : e = RErr.exdev
      · subst he
        rw [if_pos rfl] at hmd
        rcases hcd : copy_directory fuel sys src dest with ⟨rc, sysC⟩
        rw [hcd] at hmd
        simp only at hmd
        by_cases hrc : rc = SUCCESS
        · right
          exact hrc
        · rw [if_pos hrc] at hmd
          have h2 : sysC = sysF := congrArg Prod.snd hmd
          subst h2
          obtain ⟨-, -, -, evs, hlogC, hrw⟩ := copy_directory_log hcd
          rw [hlog, List.nil_append] at hlogC
          exfalso
          have hp2 : Ev.removedE p ∈ sysC.log := hp
          rw [hlogC] at hp2
          rcases hrw _ hp2 with ⟨q, k, h3⟩ | ⟨q, k, h3⟩ <;> cases h3
      · rw [if_neg he] at hmd
        have h2 : sys = sysF := congrArg Prod.snd hmd
        exfalso
        have hp2 : Ev.removedE p ∈ sys.log := by
          rw [h2]
          exact hp
        rw [hlog] at hp2
        cases hp2

/-- Closed instance of the amended C2: in a cross-device move of the file
`a` to `b`, every source removal in the log is preceded by a verification
or rename event, and any removal in a directory move presupposes a
successful rename or a completed copy. -/
theorem claim_C2_source_deletion_guard_witness :
    removalPreceded ["a"] ["b"] (move_file sysCrossOne ["a"] ["b"]).2.log ∧
    (∀ fuel p, Ev.removedE p ∈ (move_directory fuel sysCrossOne ["a"] ["b"]).2.log →
      Ev.renamedE ["a"] ["b"] ∈ (move_directory fuel sysCrossOne ["a"] ["b"]).2.log ∨
      (copy_directory fuel sysCrossOne ["a"] ["b"]).1 = SUCCESS) :=
  claim_C2_source_deletion_guard sysCrossOne ["a"] ["b"] rfl

/-- C2 counterexample: the cross-device directory move of `s` (holding the
file `s/f`) to `d` rename-fails with `EXDEV`, falls back to copy-then-
delete, and its final log is reads and writes followed by the removals of
`s/f` and `s`, with NO `verifiedE` and NO `renamedE` event anywhere — the
source is deleted although neither a rename nor any content verification
ever succeeded, and the call still reports SUCCESS. -/
theorem claim_C2_counterexample :
    (move_directory 3 sysMoveDir ["s"] ["d"]).2.log =
      [Ev.readE ["s", "f"] 1, Ev.writeE ["d", "f"] 1, Ev.readE ["s", "f"] 0,
       Ev.removedE ["s", "f"], Ev.removedE ["s"]] ∧
    ((move_directory 3 sysMoveDir ["s"] ["d"]).2.log.all
      fun e => !isVerifyOrRename e) = true ∧
    (move_directory 3 sysMoveDir ["s"] ["d"]).1 = SUCCESS := by
  decide

end FileOps
